import Mathlib

/-
Shallow embedding of the FlopLab poker engine (src/src/lib/poker.ts).

Modeling conventions:
- JS numbers are modeled exactly: card/rank arithmetic as Nat/Int, equity accumulation as ℚ
  (the source uses IEEE doubles; the spec describes exact arithmetic, and every claim proved
  about equity below is exact also in doubles in the cases it covers).
- Math.random-based drawing: the source computes idx = Math.floor(Math.random() * deck.length),
  which is a value in [0, deck.length). We model the randomness source as an explicit stream
  g : Nat → Nat together with a position counter t; a draw uses idx = g t % deck.length, which
  ranges over exactly the same index set, and every index sequence is realizable by some g.
  Claims about "every possible sequence of random draws" quantify over all g.
- A JS runtime crash (reading an undefined array element and then dereferencing it, as
  evaluate7 does when given fewer than 7 cards) is modeled by Option, with none = crash.
  drawRandom from an empty deck (which in JS produces undefined and crashes later) is modeled
  totally with a default card; no theorem below ever exercises a draw from an empty deck.
- JS Array.prototype.sort with a total antisymmetric comparator produces the unique sorted
  arrangement, which insertionSort with the corresponding relation also produces.
- A JS Map iterates keys in first-insertion order; dedupFirst reproduces that key order and
  rankCounts the resulting (key, count) entry list.
-/

inductive Suit where
| s
| h
| d
| c
deriving DecidableEq

inductive Rank where
| r2
| r3
| r4
| r5
| r6
| r7
| r8
| r9
| rT
| rJ
| rQ
| rK
| rA
deriving DecidableEq

structure Card where
  rank : Rank
  suit : Suit
deriving DecidableEq

def RANK_VALUE : Rank → Nat
| .r2 => 2
| .r3 => 3
| .r4 => 4
| .r5 => 5
| .r6 => 6
| .r7 => 7
| .r8 => 8
| .r9 => 9
| .rT => 10
| .rJ => 11
| .rQ => 12
| .rK => 13
| .rA => 14

def SUITS : List Suit := [.s, .h, .d, .c]

def RANKS : List Rank :=
  [.r2, .r3, .r4, .r5, .r6, .r7, .r8, .r9, .rT, .rJ, .rQ, .rK, .rA]

def rankChar : Rank → Char
| .r2 => '2'
| .r3 => '3'
| .r4 => '4'
| .r5 => '5'
| .r6 => '6'
| .r7 => '7'
| .r8 => '8'
| .r9 => '9'
| .rT => 'T'
| .rJ => 'J'
| .rQ => 'Q'
| .rK => 'K'
| .rA => 'A'

def suitChar : Suit → Char
| .s => 's'
| .h => 'h'
| .d => 'd'
| .c => 'c'

def cardToString (card : Card) : String :=
  String.mk [rankChar card.rank, suitChar card.suit]

def createDeck (exclude : List Card) : List Card :=
  let used := exclude.map cardToString
  (SUITS.flatMap fun suit => RANKS.map fun rank => Card.mk rank suit).filter
    fun card => !(used.contains (cardToString card))

def sortDesc (l : List Nat) : List Nat :=
  List.insertionSort (fun a b => b ≤ a) l

def dedupFirst (l : List Nat) : List Nat :=
  l.foldl (fun acc x => if x ∈ acc then acc else acc ++ [x]) []

def rankCounts (ranks : List Nat) : List (Nat × Nat) :=
  (dedupFirst ranks).map fun k => (k, ranks.count k)

def groupLE (a b : Nat × Nat) : Prop :=
  b.2 < a.2 ∨ (a.2 = b.2 ∧ b.1 ≤ a.1)

instance : DecidableRel groupLE := fun a b => by
  unfold groupLE
  infer_instance

def sortGroups (l : List (Nat × Nat)) : List (Nat × Nat) :=
  List.insertionSort groupLE l

def straightScan : List Nat → Option Nat
| a :: b :: c :: d :: e :: rest =>
  if (a : Int) - (e : Int) = 4 then some a else straightScan (b :: c :: d :: e :: rest)
| _ => none

def getStraightHigh (ranksDesc : List Nat) : Option Nat :=
  if ranksDesc.length < 5 then none
  else
    let sorted := sortDesc (dedupFirst ranksDesc)
    match straightScan sorted with
    | some high => some high
    | none =>
      if sorted.contains 14 && sorted.contains 5 && sorted.contains 4 &&
          sorted.contains 3 && sorted.contains 2 then
        some 5
      else none

def isFlush : List Card → Bool
| [] => true
| c0 :: rest => (c0 :: rest).all fun card => card.suit == c0.suit

def evalRanks (ranks : List Nat) (flush : Bool) : List Nat :=
  let uniqueRanks := sortDesc (dedupFirst ranks)
  let straightHigh := getStraightHigh uniqueRanks
  if flush && straightHigh.isSome then [8, straightHigh.getD 0]
  else
    let groups := sortGroups (rankCounts ranks)
    let g0 := groups.headD (0, 0)
    let g1 := (groups.drop 1).headD (0, 0)
    if g0.2 = 4 then [7, g0.1, g1.1]
    else if g0.2 = 3 ∧ g1.2 = 2 then [6, g0.1, g1.1]
    else if flush then 5 :: ranks
    else if straightHigh.isSome then [4, straightHigh.getD 0]
    else if g0.2 = 3 then 3 :: g0.1 :: sortDesc ((groups.drop 1).map Prod.fst)
    else if g0.2 = 2 ∧ g1.2 = 2 then
      [2, max g0.1 g1.1, min g0.1 g1.1, ((groups.drop 2).headD (0, 0)).1]
    else if g0.2 = 2 then 1 :: g0.1 :: sortDesc ((groups.drop 1).map Prod.fst)
    else 0 :: ranks

def evaluate5 (cards : List Card) : List Nat :=
  evalRanks (sortDesc (cards.map fun card => RANK_VALUE card.rank)) (isFlush cards)

def compareLoop : Nat → List Nat → List Nat → Int
| 0, _, _ => 0
| len + 1, a, b =>
  let diff := ((a.headD 0 : Nat) : Int) - ((b.headD 0 : Nat) : Int)
  if diff ≠ 0 then diff else compareLoop len a.tail b.tail

def compareRanks (a b : List Nat) : Int :=
  compareLoop (max a.length b.length) a b

def loopRange (lo hi : Nat) : List Nat := List.range' lo (hi - lo)

def COMBOS_7_5 : List (List Nat) :=
  (loopRange 0 3).flatMap fun a =>
    (loopRange (a + 1) 4).flatMap fun b =>
      (loopRange (b + 1) 5).flatMap fun c =>
        (loopRange (c + 1) 6).flatMap fun d =>
          (loopRange (d + 1) 7).map fun e => [a, b, c, d, e]

def combosGenAux (n : Nat) : Nat → Nat → List (List Nat)
| 0, _ => [[]]
| k + 1, start =>
  (loopRange start n).flatMap fun i => (combosGenAux n k (i + 1)).map fun combo => i :: combo

def getCombos (len : Nat) : List (List Nat) :=
  if len = 7 then COMBOS_7_5 else combosGenAux len 5 0

def pick (cards : List Card) (combo : List Nat) : Option (List Card) :=
  combo.mapM fun idx => cards[idx]?

def bestRankFold (first : List Nat) (hands : List (List Nat)) : List Nat :=
  hands.foldl (fun best hand => if compareRanks hand best > 0 then hand else best) first

def evaluate7 (cards : List Card) : Option (List Nat) :=
  match COMBOS_7_5.mapM (fun combo => (pick cards combo).map evaluate5) with
  | some (h :: hs) => some (bestRankFold h hs)
  | _ => none

def rankToLabel (rank : Nat) : String :=
  if rank = 8 then "Straight Flush"
  else if rank = 7 then "Four of a Kind"
  else if rank = 6 then "Full House"
  else if rank = 5 then "Flush"
  else if rank = 4 then "Straight"
  else if rank = 3 then "Three of a Kind"
  else if rank = 2 then "Two Pair"
  else if rank = 1 then "One Pair"
  else "High Card"

def bestHandRank (cards : List Card) : Option (List Nat) :=
  match (getCombos cards.length).mapM (fun combo => (pick cards combo).map evaluate5) with
  | some (h :: hs) => some (bestRankFold h hs)
  | _ => none

def getBestHandLabel (cards : List Card) : String :=
  if cards.length < 5 then
    let counts := rankCounts (cards.map fun card => RANK_VALUE card.rank)
    let values := sortDesc (counts.map Prod.snd)
    if values.headD 0 = 2 then "One Pair"
    else if values.headD 0 = 3 then "Three of a Kind"
    else "High Card"
  else rankToLabel (((bestHandRank cards).getD []).headD 0)

def defaultCard : Card := ⟨Rank.r2, Suit.s⟩

def drawRandom (g : Nat → Nat) (t : Nat) (deck : List Card) : Card × List Card × Nat :=
  let idx := g t % deck.length
  (deck.getD idx defaultCard, deck.eraseIdx idx, t + 1)

def drawOpponents (g : Nat → Nat) : Nat → Nat → List Card → List (List Card) × List Card × Nat
| 0, t, deck => ([], deck, t)
| j + 1, t, deck =>
  let (first, deck1, t1) := drawRandom g t deck
  let (second, deck2, t2) := drawRandom g t1 deck1
  let (rest, deck3, t3) := drawOpponents g j t2 deck2
  ([first, second] :: rest, deck3, t3)

def fillBoardLoop (g : Nat → Nat) : Nat → Nat → List Card → List Card →
    List Card × List Card × Nat
| 0, t, deck, board => (board, deck, t)
| fuel + 1, t, deck, board =>
  if board.length < 5 then
    let (card, deck1, t1) := drawRandom g t deck
    fillBoardLoop g fuel t1 deck1 (board ++ [card])
  else (board, deck, t)

def fillBoard (g : Nat → Nat) (t : Nat) (deck : List Card) (board : List Card) :
    List Card × List Card × Nat :=
  fillBoardLoop g 5 t deck board

def scanWinners (heroRank : List Nat) (oppRanks : List (List Nat)) : List Nat × List Int :=
  oppRanks.enum.foldl
    (fun acc p =>
      let cmp := compareRanks p.2 acc.1
      if cmp > 0 then (p.2, [(p.1 : Int)])
      else if cmp = 0 then (acc.1, acc.2 ++ [(p.1 : Int)])
      else acc)
    (heroRank, [(-1 : Int)])

structure WinRateParams where
  hero : List Card
  board : List Card
  numPlayers : Nat
  knownOpponents : List (List Card)
  iterations : Nat

structure WinRateResult where
  equity : ℚ
  iterations : Nat
deriving DecidableEq

def trialSetup (hero board : List Card) (knownOpponents : List (List Card))
    (unknownOpponentsCount : Nat) (g : Nat → Nat) (t : Nat) :
    List (List Card) × List Card × Nat :=
  let deck := createDeck (hero ++ board ++ knownOpponents.flatten)
  let (unknownOpponents, deck1, t1) := drawOpponents g unknownOpponentsCount t deck
  let (fullBoard, _, t2) := fillBoard g t1 deck1 board
  (unknownOpponents, fullBoard, t2)

def runTrial (hero board : List Card) (knownOpponents : List (List Card))
    (unknownOpponentsCount : Nat) (g : Nat → Nat) (t : Nat) : Option (ℚ × Nat) :=
  let (unknownOpponents, fullBoard, t2) :=
    trialSetup hero board knownOpponents unknownOpponentsCount g t
  match evaluate7 (hero ++ fullBoard),
      (knownOpponents ++ unknownOpponents).mapM (fun hand => evaluate7 (hand ++ fullBoard)) with
  | some heroRank, some oppRanks =>
    let winners := (scanWinners heroRank oppRanks).2
    some ((if winners.contains (-1) then 1 / (winners.length : ℚ) else 0), t2)
  | _, _ => none

def simLoop (hero board : List Card) (knownOpponents : List (List Card))
    (unknownOpponentsCount : Nat) (g : Nat → Nat) :
    Nat → Nat → ℚ → Option (ℚ × Nat)
| 0, t, acc => some (acc, t)
| n + 1, t, acc =>
  match runTrial hero board knownOpponents unknownOpponentsCount g t with
  | some (credit, t1) => simLoop hero board knownOpponents unknownOpponentsCount g n t1 (acc + credit)
  | none => none

def calculateWinRate (p : WinRateParams) (g : Nat → Nat) : Option WinRateResult :=
  let unknownOpponentsCount :=
    (max ((p.numPlayers : Int) - 1 - (p.knownOpponents.length : Int)) 0).toNat
  match simLoop p.hero p.board p.knownOpponents unknownOpponentsCount g p.iterations 0 0 with
  | some (equity, _) => some ⟨equity / (p.iterations : ℚ), p.iterations⟩
  | none => none

/-! ## Comparator laws -/

theorem compareRanks_nil_nil : compareRanks [] [] = 0 := by decide

theorem compareRanks_cons_nil (a : Nat) (as : List Nat) :
    compareRanks (a :: as) [] =
      if (a : Int) - 0 ≠ 0 then (a : Int) - 0 else compareRanks as [] := by
  unfold compareRanks
  simp only [List.length_cons, List.length_nil, Nat.max_zero, compareLoop,
    List.headD_cons, List.headD_nil, List.tail_cons, List.tail_nil, Nat.cast_zero]

theorem compareRanks_nil_cons (b : Nat) (bs : List Nat) :
    compareRanks [] (b :: bs) =
      if 0 - (b : Int) ≠ 0 then 0 - (b : Int) else compareRanks [] bs := by
  unfold compareRanks
  simp only [List.length_cons, List.length_nil, Nat.zero_max, compareLoop,
    List.headD_cons, List.headD_nil, List.tail_cons, List.tail_nil, Nat.cast_zero]

theorem compareRanks_cons_cons (a b : Nat) (as bs : List Nat) :
    compareRanks (a :: as) (b :: bs) =
      if (a : Int) - (b : Int) ≠ 0 then (a : Int) - (b : Int) else compareRanks as bs := by
  unfold compareRanks
  simp only [List.length_cons, Nat.succ_max_succ, compareLoop,
    List.headD_cons, List.tail_cons]

theorem compareRanks_refl : ∀ a : List Nat, compareRanks a a = 0
| [] => compareRanks_nil_nil
| a :: as => by
  rw [compareRanks_cons_cons]
  simpa using compareRanks_refl as

theorem compareRanks_neg (a b : List Nat) : compareRanks b a = -compareRanks a b := by
  induction a generalizing b with
  | nil =>
    induction b with
    | nil => decide
    | cons y ys ih =>
      rw [compareRanks_cons_nil, compareRanks_nil_cons]
      split_ifs with h1 h2 <;> first | omega | exact ih
  | cons x xs ih =>
    cases b with
    | nil =>
      rw [compareRanks_cons_nil, compareRanks_nil_cons]
      split_ifs with h1 h2 <;> first | omega | exact ih []
    | cons y ys =>
      rw [compareRanks_cons_cons, compareRanks_cons_cons]
      split_ifs with h1 h2 <;> first | omega | exact ih ys

theorem compareRanks_nil_nonpos : ∀ b : List Nat, compareRanks [] b ≤ 0
| [] => le_of_eq compareRanks_nil_nil
| b :: bs => by
  rw [compareRanks_nil_cons]
  split_ifs with h
  · omega
  · exact compareRanks_nil_nonpos bs

theorem compareRanks_nil_nonneg : ∀ a : List Nat, 0 ≤ compareRanks a []
| [] => le_of_eq compareRanks_nil_nil.symm
| a :: as => by
  rw [compareRanks_cons_nil]
  split_ifs with h
  · omega
  · exact compareRanks_nil_nonneg as

theorem compareRanks_zero_subst (a b : List Nat) (h : compareRanks a b = 0) :
    ∀ c : List Nat, compareRanks a c = compareRanks b c := by
  induction a generalizing b with
  | nil =>
    induction b with
    | nil => intro c; rfl
    | cons y ys ih =>
      rw [compareRanks_nil_cons] at h
      split_ifs at h with hy
      · omega
      · have hy0 : (y : Int) = 0 := by omega
        intro c
        cases c with
        | nil =>
          rw [compareRanks_cons_nil, if_neg (by omega)]
          have h1 := compareRanks_neg [] ys
          have h2 := ih h
          have h3 := h2 []
          omega
        | cons z zs =>
          rw [compareRanks_nil_cons, compareRanks_cons_cons]
          rw [hy0]
          split_ifs with hz
          · rfl
          · exact ih h zs
  | cons x xs ih =>
    cases b with
    | nil =>
      rw [compareRanks_cons_nil] at h
      split_ifs at h with hx
      · omega
      · have hx0 : (x : Int) = 0 := by omega
        intro c
        cases c with
        | nil =>
          rw [compareRanks_cons_nil, if_neg (by omega)]
          exact h
        | cons z zs =>
          rw [compareRanks_cons_cons, compareRanks_nil_cons]
          rw [hx0]
          split_ifs with hz
          · omega
          · exact ih [] h zs
    | cons y ys =>
      rw [compareRanks_cons_cons] at h
      split_ifs at h with hxy
      · omega
      · have hxy0 : (x : Int) = (y : Int) := by omega
        intro c
        cases c with
        | nil =>
          rw [compareRanks_cons_nil, compareRanks_cons_nil, hxy0]
          split_ifs with hy
          · rfl
          · exact ih ys h []
        | cons z zs =>
          rw [compareRanks_cons_cons, compareRanks_cons_cons, hxy0]
          split_ifs with hy
          · rfl
          · exact ih ys h zs

theorem compareRanks_zero_subst_right (b c : List Nat) (h : compareRanks b c = 0)
    (a : List Nat) : compareRanks a b = compareRanks a c := by
  have h1 := compareRanks_neg b a
  have h2 := compareRanks_neg c a
  have h3 := compareRanks_zero_subst b c h a
  omega

theorem compareRanks_trans_nonneg :
    ∀ a b c : List Nat, 0 ≤ compareRanks a b → 0 ≤ compareRanks b c → 0 ≤ compareRanks a c := by
  intro a
  induction a with
  | nil =>
    intro b c h1 h2
    have h0 : compareRanks [] b = 0 := le_antisymm (compareRanks_nil_nonpos b) h1
    rw [compareRanks_zero_subst [] b h0 c]
    exact h2
  | cons x xs ih =>
    intro b c h1 h2
    cases b with
    | nil =>
      have h0 : compareRanks [] c = 0 := le_antisymm (compareRanks_nil_nonpos c) h2
      have h0r : compareRanks c [] = 0 := by
        have := compareRanks_neg [] c
        omega
      rw [compareRanks_zero_subst_right c [] h0r (x :: xs)]
      exact compareRanks_nil_nonneg (x :: xs)
    | cons y ys =>
      cases c with
      | nil => exact compareRanks_nil_nonneg (x :: xs)
      | cons z zs =>
        rw [compareRanks_cons_cons] at h1 h2 ⊢
        split_ifs at h1 h2 ⊢ with ha hb hc <;>
          first
          | omega
          | exact ih ys zs (by omega) (by omega)
          | { exfalso
              have := ih ys zs (by omega) (by omega)
              omega }

theorem compareRanks_trans_pos (a b c : List Nat)
    (h1 : 0 < compareRanks a b) (h2 : 0 < compareRanks b c) : 0 < compareRanks a c := by
  have hge := compareRanks_trans_nonneg a b c (le_of_lt h1) (le_of_lt h2)
  rcases lt_or_eq_of_le hge with h | h
  · exact h
  · exfalso
    have hs := compareRanks_zero_subst a c h.symm b
    have hn := compareRanks_neg b c
    omega

theorem compareRanks_pos_zero (a b c : List Nat)
    (h1 : 0 < compareRanks a b) (h2 : compareRanks b c = 0) : 0 < compareRanks a c := by
  rw [← compareRanks_zero_subst_right b c h2 a]
  exact h1

theorem compareRanks_zero_pos (a b c : List Nat)
    (h1 : compareRanks a b = 0) (h2 : 0 < compareRanks b c) : 0 < compareRanks a c := by
  rw [compareRanks_zero_subst a b h1 c]
  exact h2

theorem compareRanks_append_zeros (a : List Nat) (n : Nat) :
    compareRanks (a ++ List.replicate n 0) a = 0 := by
  induction a with
  | nil =>
    simp only [List.nil_append]
    induction n with
    | zero => decide
    | succ m ih =>
      rw [List.replicate_succ, compareRanks_cons_nil, if_neg (by simp)]
      have := compareRanks_neg [] (List.replicate m 0)
      have := compareRanks_neg (List.replicate m 0) []
      omega
  | cons x xs ih =>
    rw [List.cons_append, compareRanks_cons_cons, if_neg (by omega)]
    exact ih

/-- C4: compareRanks compares descriptor sequences lexicographically element-wise, treating
positions beyond a sequence's length as 0 (appending trailing zeros to either argument never
changes the result), and is a strict total order on descriptors: antisymmetric
(compareRanks b a is the negation of compareRanks a b, and the result is 0 exactly when
neither side compares greater), transitive (both for strict greater and for equality), and
the category (first element) dominates: if a's first element exceeds b's, a compares greater
regardless of all later elements. -/
theorem claim_C4_compareRanks_strict_total_order :
    (∀ (a b : List Nat) (n m : Nat),
        compareRanks (a ++ List.replicate n 0) (b ++ List.replicate m 0) = compareRanks a b)
    ∧ (∀ a b : List Nat, compareRanks b a = -compareRanks a b)
    ∧ (∀ a b : List Nat,
        compareRanks a b = 0 ↔ ¬0 < compareRanks a b ∧ ¬0 < compareRanks b a)
    ∧ (∀ a b c : List Nat,
        0 < compareRanks a b → 0 < compareRanks b c → 0 < compareRanks a c)
    ∧ (∀ a b c : List Nat,
        compareRanks a b = 0 → compareRanks b c = 0 → compareRanks a c = 0)
    ∧ (∀ (a b : Nat) (as bs : List Nat), b < a → 0 < compareRanks (a :: as) (b :: bs)) := by
  refine ⟨?_, compareRanks_neg, ?_, compareRanks_trans_pos, ?_, ?_⟩
  · intro a b n m
    have hpa : compareRanks (a ++ List.replicate n 0) a = 0 := compareRanks_append_zeros a n
    have hpb : compareRanks (b ++ List.replicate m 0) b = 0 := compareRanks_append_zeros b m
    rw [compareRanks_zero_subst (a ++ List.replicate n 0) a hpa]
    exact compareRanks_zero_subst_right (b ++ List.replicate m 0) b hpb a
  · intro a b
    have hn := compareRanks_neg a b
    constructor
    · intro h
      omega
    · intro h
      omega
  · intro a b c h1 h2
    have := compareRanks_zero_subst a b h1 c
    omega
  · intro a b as bs hab
    rw [compareRanks_cons_cons, if_pos (by omega)]
    omega

/-- C4 witness: the strict-transitivity component of C4 applied at concrete descriptors. -/
theorem claim_C4_witness : 0 < compareRanks [7, 2, 13] [6, 13, 2] :=
  claim_C4_compareRanks_strict_total_order.2.2.2.1 [7, 2, 13] [7, 2, 12] [6, 13, 2]
    (by decide) (by decide)

/-! ## Deck builder -/

theorem rankChar_inj (r1 r2 : Rank) (h : rankChar r1 = rankChar r2) : r1 = r2 := by
  cases r1 <;> cases r2 <;> first | rfl | exact absurd h (by decide)

theorem suitChar_inj (s1 s2 : Suit) (h : suitChar s1 = suitChar s2) : s1 = s2 := by
  cases s1 <;> cases s2 <;> first | rfl | exact absurd h (by decide)

theorem cardToString_inj (c1 c2 : Card) (h : cardToString c1 = cardToString c2) : c1 = c2 := by
  unfold cardToString at h
  injection h with h
  simp only [List.cons.injEq, and_true] at h
  rcases c1 with ⟨r1, s1⟩
  rcases c2 with ⟨r2, s2⟩
  rw [rankChar_inj r1 r2 h.1, suitChar_inj s1 s2 h.2]

theorem mem_allCards (c : Card) :
    c ∈ (SUITS.flatMap fun suit => RANKS.map fun rank => Card.mk rank suit) := by
  rcases c with ⟨r, s⟩
  cases r <;> cases s <;> decide

theorem createDeck_pred (exclude : List Card) (c : Card) :
    (!(exclude.map cardToString).contains (cardToString c)) = decide (c ∉ exclude) := by
  rcases h : (exclude.map cardToString).contains (cardToString c) with _ | _
  · have hns : cardToString c ∉ exclude.map cardToString := by simpa using h
    have hmem : c ∉ exclude := fun hc => hns (List.mem_map.2 ⟨c, hc, rfl⟩)
    simp [hmem]
  · have hs : cardToString c ∈ exclude.map cardToString := by simpa using h
    obtain ⟨c2, hc2, hss⟩ := List.mem_map.1 hs
    have : c2 = c := cardToString_inj c2 c hss
    subst this
    simp [hc2]

theorem createDeck_eq_filter (exclude : List Card) :
    createDeck exclude =
      (SUITS.flatMap fun suit => RANKS.map fun rank => Card.mk rank suit).filter
        fun c => decide (c ∉ exclude) := by
  unfold createDeck
  exact List.filter_congr fun c _ => createDeck_pred exclude c

theorem allCards_nodup :
    (SUITS.flatMap fun suit => RANKS.map fun rank => Card.mk rank suit).Nodup := by
  decide

theorem mem_createDeck (exclude : List Card) (c : Card) :
    c ∈ createDeck exclude ↔ c ∉ exclude := by
  rw [createDeck_eq_filter, List.mem_filter]
  constructor
  · intro h
    simpa using h.2
  · intro h
    exact ⟨mem_allCards c, by simpa using h⟩

theorem createDeck_nil_eq :
    createDeck [] = SUITS.flatMap fun suit => RANKS.map fun rank => Card.mk rank suit := by
  rw [createDeck_eq_filter]
  simp

theorem createDeck_nodup (exclude : List Card) : (createDeck exclude).Nodup := by
  rw [createDeck_eq_filter]
  exact (List.filter_sublist _).nodup allCards_nodup

theorem createDeck_length (exclude : List Card) (hnd : exclude.Nodup) :
    (createDeck exclude).length = 52 - exclude.length := by
  classical
  set l := SUITS.flatMap fun suit => RANKS.map fun rank => Card.mk rank suit with hl
  have hlen : l.length = 52 := by rw [hl]; decide
  have hperm : (l.filter fun c => decide (c ∈ exclude)).Perm exclude := by
    apply List.Subperm.antisymm
    · apply List.subperm_of_subset ((List.filter_sublist l).nodup allCards_nodup)
      intro c hc
      have := (List.mem_filter.1 hc).2
      simpa using this
    · apply List.subperm_of_subset hnd
      intro c hc
      exact List.mem_filter.2 ⟨mem_allCards c, by simpa using hc⟩
  have hcount := List.length_eq_countP_add_countP (fun c => decide (c ∈ exclude)) l
  have h1 : (l.filter fun c => decide (c ∈ exclude)).length = exclude.length := hperm.length_eq
  rw [← List.countP_eq_length_filter] at h1
  have h2 : (createDeck exclude).length =
      List.countP (fun c => decide (c ∉ exclude)) l := by
    rw [createDeck_eq_filter, ← List.countP_eq_length_filter]
  have h3 : List.countP (fun c => decide (c ∉ exclude)) l =
      List.countP (fun c => decide ¬(decide (c ∈ exclude) = true)) l := by
    apply List.countP_congr
    intro c _
    simp
  rw [h2, h3]
  omega

/-- C9: for every list of distinct excluded cards, createDeck returns exactly
52 - length distinct cards, none of which is excluded, as a subsequence of the fixed
canonical suit-major rank-minor full enumeration (so in fixed canonical order, with no
randomness); createDeck of the empty list is the full 52-card enumeration and createDeck of
all 52 cards is empty. -/
theorem claim_C9_createDeck (exclude : List Card) (hnd : exclude.Nodup) :
    (createDeck exclude).length = 52 - exclude.length
    ∧ (createDeck exclude).Nodup
    ∧ (∀ c ∈ createDeck exclude, c ∉ exclude)
    ∧ (createDeck exclude).Sublist (createDeck [])
    ∧ createDeck [] = (SUITS.flatMap fun suit => RANKS.map fun rank => Card.mk rank suit)
    ∧ (createDeck []).length = 52
    ∧ createDeck (createDeck []) = [] := by
  refine ⟨createDeck_length exclude hnd, createDeck_nodup exclude,
    fun c hc => (mem_createDeck exclude c).1 hc, ?_, createDeck_nil_eq, by decide, by decide⟩
  rw [createDeck_eq_filter, createDeck_nil_eq]
  exact List.filter_sublist _

/-- C9 witness: C9 applied to the concrete one-card exclusion list. -/
theorem claim_C9_witness :
    (createDeck [Card.mk Rank.r2 Suit.s]).length = 52 - 1 :=
  (claim_C9_createDeck [Card.mk Rank.r2 Suit.s] (by decide)).1

/-! ## Combination generator and subset picking -/

theorem mem_loopRange (x lo hi : Nat) : x ∈ loopRange lo hi ↔ lo ≤ x ∧ x < hi := by
  unfold loopRange
  rw [List.mem_range']
  constructor
  · rintro ⟨i, hi2, rfl⟩
    omega
  · rintro ⟨h1, h2⟩
    exact ⟨x - lo, by omega, by omega⟩

theorem mem_combosGenAux (n : Nat) :
    ∀ (k start : Nat) (l : List Nat),
      l ∈ combosGenAux n k start ↔
        l.length = k ∧ l.Sorted (· < ·) ∧ ∀ x ∈ l, start ≤ x ∧ x < n := by
  intro k
  induction k with
  | zero =>
    intro start l
    simp only [combosGenAux, List.mem_singleton]
    constructor
    · rintro rfl
      simp
    · rintro ⟨h1, _, _⟩
      exact List.length_eq_zero.1 h1
  | succ k ih =>
    intro start l
    simp only [combosGenAux, List.mem_flatMap, List.mem_map]
    constructor
    · rintro ⟨i, hi, combo, hcombo, rfl⟩
      rw [mem_loopRange] at hi
      obtain ⟨hlen, hsort, hbnd⟩ := (ih (i + 1) combo).1 hcombo
      refine ⟨by simp [hlen], ?_, ?_⟩
      · rw [List.sorted_cons]
        refine ⟨fun b hb => ?_, hsort⟩
        have := (hbnd b hb).1
        omega
      · intro x hx
        rcases List.mem_cons.1 hx with rfl | hx2
        · exact ⟨hi.1, hi.2⟩
        · have := hbnd x hx2
          exact ⟨by omega, this.2⟩
    · rintro ⟨hlen, hsort, hbnd⟩
      cases l with
      | nil => simp at hlen
      | cons x rest =>
        refine ⟨x, ?_, rest, ?_, rfl⟩
        · rw [mem_loopRange]
          exact hbnd x (by simp)
        · apply (ih (x + 1) rest).2
          rw [List.sorted_cons] at hsort
          refine ⟨by simpa using hlen, hsort.2, ?_⟩
          intro y hy
          have h1 := hsort.1 y hy
          have h2 := hbnd y (List.mem_cons_of_mem x hy)
          exact ⟨by omega, h2.2⟩

theorem COMBOS_7_5_eq_gen : COMBOS_7_5 = combosGenAux 7 5 0 := by decide

theorem getCombos_eq_gen (len : Nat) : getCombos len = combosGenAux len 5 0 := by
  unfold getCombos
  split_ifs with h
  · subst h
    exact COMBOS_7_5_eq_gen
  · rfl

theorem mem_getCombos (len : Nat) (l : List Nat) :
    l ∈ getCombos len ↔ l.length = 5 ∧ l.Sorted (· < ·) ∧ ∀ x ∈ l, x < len := by
  rw [getCombos_eq_gen, mem_combosGenAux]
  constructor
  · rintro ⟨a, b, c⟩
    exact ⟨a, b, fun x hx => (c x hx).2⟩
  · rintro ⟨a, b, c⟩
    exact ⟨a, b, fun x hx => ⟨Nat.zero_le x, c x hx⟩⟩

theorem pick_nil (cards : List Card) : pick cards [] = some [] := rfl

theorem pick_cons (cards : List Card) (i : Nat) (rest : List Nat) :
    pick cards (i :: rest) =
      (cards[i]?).bind fun c => (pick cards rest).bind fun l => some (c :: l) := by
  simp only [pick, List.mapM_cons]
  rcases cards[i]? with _ | c
  · rfl
  · rcases (rest.mapM fun idx => cards[idx]?) with _ | l <;> rfl

theorem pick_drop (m : Nat) (combo : List Nat) :
    ∀ cards : List Card, (∀ y ∈ combo, m ≤ y) →
      pick cards combo = pick (cards.drop m) (combo.map fun y => y - m) := by
  induction combo with
  | nil =>
    intro cards _
    rfl
  | cons y rest ih =>
    intro cards hb
    rw [List.map_cons, pick_cons, pick_cons]
    have hy : m ≤ y := hb y (by simp)
    have hidx : (cards.drop m)[y - m]? = cards[y]? := by
      rw [List.getElem?_drop]
      congr 1
      omega
    rw [hidx, ih cards fun z hz => hb z (by simp [hz])]

theorem pick_sorted_sublist :
    ∀ (k : Nat) (combo : List Nat) (cards : List Card), combo.length = k →
      combo.Sorted (· < ·) → (∀ i ∈ combo, i < cards.length) →
      ∃ l, pick cards combo = some l ∧ l.Sublist cards ∧ l.length = combo.length := by
  intro k
  induction k with
  | zero =>
    intro combo cards hlen _ _
    rw [List.length_eq_zero] at hlen
    subst hlen
    exact ⟨[], rfl, List.nil_sublist cards, rfl⟩
  | succ k ih =>
    intro combo cards hlen hsort hbnd
    cases combo with
    | nil => simp at hlen
    | cons i rest =>
      have hi : i < cards.length := hbnd i (by simp)
      have hrest_lb : ∀ y ∈ rest, i + 1 ≤ y := by
        rw [List.sorted_cons] at hsort
        intro y hy
        have := hsort.1 y hy
        omega
      have hlen2 : (rest.map fun y => y - (i + 1)).length = k := by
        simp only [List.length_map]
        simp only [List.length_cons] at hlen
        omega
      have hsort2 : (rest.map fun y => y - (i + 1)).Sorted (· < ·) := by
        have hp : List.Pairwise (fun a b => a - (i + 1) < b - (i + 1)) rest := by
          apply List.Pairwise.imp_of_mem ?_ ((List.sorted_cons.1 hsort).2)
          intro a b ha _ hab
          have := hrest_lb a ha
          omega
        exact List.pairwise_map.mpr hp
      have hbnd2 : ∀ x ∈ rest.map fun y => y - (i + 1), x < (cards.drop (i + 1)).length := by
        intro x hx
        rw [List.length_drop]
        obtain ⟨y, hy, rfl⟩ := List.mem_map.1 hx
        have h1 := hbnd y (List.mem_cons_of_mem i hy)
        have h2 := hrest_lb y hy
        omega
      obtain ⟨l, hl, hsub, hlength⟩ := ih _ _ hlen2 hsort2 hbnd2
      rw [pick_cons, pick_drop (i + 1) rest cards hrest_lb, hl,
        List.getElem?_eq_getElem hi]
      refine ⟨cards[i] :: l, rfl, ?_, ?_⟩
      · have hdrop : cards.drop i = cards[i] :: cards.drop (i + 1) :=
          List.drop_eq_getElem_cons hi
        have h1 : (cards[i] :: l).Sublist (cards[i] :: cards.drop (i + 1)) :=
          List.Sublist.cons₂ _ hsub
        have h2 : (cards[i] :: cards.drop (i + 1)).Sublist cards := by
          rw [← hdrop]
          exact List.drop_sublist i cards
        exact h1.trans h2
      · simp only [List.length_cons, List.length_map] at hlength ⊢
        omega

theorem pick_shift_up (combo : List Nat) (a : Card) (cs : List Card) :
    pick (a :: cs) (combo.map fun y => y + 1) = pick cs combo := by
  rw [pick_drop 1 (combo.map fun y => y + 1) (a :: cs) (by
    intro y hy
    obtain ⟨z, _, rfl⟩ := List.mem_map.1 hy
    omega)]
  have hmm : ((combo.map fun y => y + 1).map fun y => y - 1) = combo := by
    rw [List.map_map]
    have : ∀ y ∈ combo, ((fun y => y - 1) ∘ fun y => y + 1) y = id y := by
      intro y _
      simp
    rw [List.map_congr_left this, List.map_id]
  rw [hmm]
  rfl

theorem exists_combo_of_sublist {l cards : List Card} (h : l.Sublist cards) :
    ∃ combo : List Nat, combo.Sorted (· < ·) ∧ (∀ i ∈ combo, i < cards.length) ∧
      combo.length = l.length ∧ pick cards combo = some l := by
  induction h with
  | slnil => exact ⟨[], by simp, by simp, rfl, rfl⟩
  | @cons l₁ l₂ a hsub ih =>
    obtain ⟨combo, hs, hb, hl, hp⟩ := ih
    refine ⟨combo.map fun y => y + 1, ?_, ?_, by simp [hl], ?_⟩
    · exact List.pairwise_map.mpr (hs.imp (by omega))
    · intro i hi
      obtain ⟨y, hy, rfl⟩ := List.mem_map.1 hi
      have := hb y hy
      simp only [List.length_cons]
      omega
    · rw [pick_shift_up, hp]
  | @cons₂ l₁ l₂ a hsub ih =>
    obtain ⟨combo, hs, hb, hl, hp⟩ := ih
    refine ⟨0 :: combo.map fun y => y + 1, ?_, ?_, by simp [hl], ?_⟩
    · rw [List.sorted_cons]
      constructor
      · intro b hbm
        obtain ⟨y, _, rfl⟩ := List.mem_map.1 hbm
        omega
      · exact List.pairwise_map.mpr (hs.imp (by omega))
    · intro i hi
      rcases List.mem_cons.1 hi with rfl | hi2
      · simp
      · obtain ⟨y, hy, rfl⟩ := List.mem_map.1 hi2
        have := hb y hy
        simp only [List.length_cons]
        omega
    · rw [pick_cons, pick_shift_up, hp]
      simp

/-! ## Best-rank fold -/

theorem bestRankFold_cons (first h : List Nat) (t : List (List Nat)) :
    bestRankFold first (h :: t) =
      bestRankFold (if compareRanks h first > 0 then h else first) t := rfl

theorem bestRankFold_mem (hands : List (List Nat)) :
    ∀ first : List Nat, bestRankFold first hands ∈ first :: hands := by
  induction hands with
  | nil =>
    intro first
    simp [bestRankFold]
  | cons h t ih =>
    intro first
    rw [bestRankFold_cons]
    have hmem := ih (if compareRanks h first > 0 then h else first)
    rcases List.mem_cons.1 hmem with heq | hmem2
    · rw [heq]
      split_ifs <;> simp
    · simp [List.mem_cons_of_mem, hmem2]

theorem bestRankFold_ge (hands : List (List Nat)) :
    ∀ first : List Nat, ∀ x ∈ first :: hands, 0 ≤ compareRanks (bestRankFold first hands) x := by
  induction hands with
  | nil =>
    intro first x hx
    rcases List.mem_cons.1 hx with rfl | hx2
    · simp [bestRankFold, compareRanks_refl]
    · simp at hx2
  | cons h t ih =>
    intro first x hx
    rw [bestRankFold_cons]
    set b := if compareRanks h first > 0 then h else first with hb
    have hbf : 0 ≤ compareRanks b first := by
      rw [hb]
      split_ifs with hc
      · have := compareRanks_neg h first
        omega
      · exact le_of_eq (compareRanks_refl first).symm
    have hbh : 0 ≤ compareRanks b h := by
      rw [hb]
      split_ifs with hc
      · exact le_of_eq (compareRanks_refl h).symm
      · have := compareRanks_neg h first
        omega
    have hself : 0 ≤ compareRanks (bestRankFold b t) b := ih b b (by simp)
    rcases List.mem_cons.1 hx with rfl | hx2
    · exact compareRanks_trans_nonneg _ b x hself hbf
    · rcases List.mem_cons.1 hx2 with rfl | hx3
      · exact compareRanks_trans_nonneg _ b x hself hbh
      · exact ih b x (List.mem_cons_of_mem b hx3)

/-! ## Option mapM helpers -/

theorem optionMapM_forall2 {α β : Type} (f : α → Option β) :
    ∀ l : List α, (∀ a ∈ l, (f a).isSome) →
      ∃ bs, l.mapM f = some bs ∧ List.Forall₂ (fun a b => f a = some b) l bs := by
  intro l
  induction l with
  | nil => exact fun _ => ⟨[], rfl, List.Forall₂.nil⟩
  | cons a t ih =>
    intro h
    obtain ⟨b, hb⟩ := Option.isSome_iff_exists.1 (h a (by simp))
    obtain ⟨bs, hbs, hf⟩ := ih fun x hx => h x (by simp [hx])
    refine ⟨b :: bs, ?_, List.Forall₂.cons hb hf⟩
    rw [List.mapM_cons, hb, hbs]
    rfl

theorem forall2_mem_left {α β : Type} {R : α → β → Prop} {l : List α} {bs : List β}
    (h : List.Forall₂ R l bs) : ∀ a ∈ l, ∃ b ∈ bs, R a b := by
  induction h with
  | nil =>
    intro a ha
    simp at ha
  | cons hr ht ih =>
    intro x hx
    rcases List.mem_cons.1 hx with rfl | hx2
    · exact ⟨_, by simp, hr⟩
    · obtain ⟨b, hbm, hrb⟩ := ih x hx2
      exact ⟨b, by simp [hbm], hrb⟩

theorem forall2_mem_right {α β : Type} {R : α → β → Prop} {l : List α} {bs : List β}
    (h : List.Forall₂ R l bs) : ∀ b ∈ bs, ∃ a ∈ l, R a b := by
  induction h with
  | nil =>
    intro b hb
    simp at hb
  | cons hr ht ih =>
    intro y hy
    rcases List.mem_cons.1 hy with rfl | hy2
    · exact ⟨_, by simp, hr⟩
    · obtain ⟨a, ham, hra⟩ := ih y hy2
      exact ⟨a, by simp [ham], hra⟩

/-! ## Best-hand selector -/

theorem bestHandRank_spec (cards : List Card) (h5 : 5 ≤ cards.length) :
    ∃ r, bestHandRank cards = some r
      ∧ (∃ hand, hand.Sublist cards ∧ hand.length = 5 ∧ r = evaluate5 hand)
      ∧ (∀ hand, hand.Sublist cards → hand.length = 5 →
          0 ≤ compareRanks r (evaluate5 hand)) := by
  have hsucc : ∀ combo ∈ getCombos cards.length,
      ((fun combo => (pick cards combo).map evaluate5) combo).isSome := by
    intro combo hc
    obtain ⟨hlen, hsort, hbnd⟩ := (mem_getCombos _ combo).1 hc
    obtain ⟨l, hl, _, _⟩ := pick_sorted_sublist combo.length combo cards rfl hsort hbnd
    simp [hl]
  obtain ⟨bs, hbs, hrel⟩ := optionMapM_forall2 (fun combo => (pick cards combo).map evaluate5)
    (getCombos cards.length) hsucc
  have hmem0 : [0, 1, 2, 3, 4] ∈ getCombos cards.length := by
    rw [mem_getCombos]
    refine ⟨rfl, by decide, ?_⟩
    intro x hx
    simp only [List.mem_cons, List.not_mem_nil, or_false] at hx
    rcases hx with rfl | rfl | rfl | rfl | rfl <;> omega
  have hne : bs ≠ [] := by
    intro h0
    subst h0
    have := hrel.length_eq
    have h1 := List.ne_nil_of_mem hmem0
    simp at this
    exact h1 this
  obtain ⟨b0, bs', hbs'⟩ := List.exists_cons_of_ne_nil hne
  subst hbs'
  have hbhr : bestHandRank cards = some (bestRankFold b0 bs') := by
    unfold bestHandRank
    rw [hbs]
  refine ⟨bestRankFold b0 bs', hbhr, ?_, ?_⟩
  · have hmem := bestRankFold_mem bs' b0
    obtain ⟨combo, hcm, hfc⟩ := forall2_mem_right hrel _ hmem
    obtain ⟨hlen, hsort, hbnd⟩ := (mem_getCombos _ combo).1 hcm
    obtain ⟨hand, hpk, hsub, hhl⟩ := pick_sorted_sublist combo.length combo cards rfl hsort hbnd
    rw [hpk] at hfc
    simp only [Option.map_some'] at hfc
    injection hfc with hfc
    exact ⟨hand, hsub, by omega, hfc.symm⟩
  · intro hand hsub hhl
    obtain ⟨combo, hsort, hbnd, hclen, hpk⟩ := exists_combo_of_sublist hsub
    have hcm : combo ∈ getCombos cards.length :=
      (mem_getCombos _ combo).2 ⟨by omega, hsort, hbnd⟩
    obtain ⟨b, hbm, hfb⟩ := forall2_mem_left hrel combo hcm
    rw [hpk] at hfb
    simp only [Option.map_some'] at hfb
    injection hfb with hfb
    rw [hfb]
    exact bestRankFold_ge bs' b0 b hbm

theorem evaluate7_eq_bestHandRank (cards : List Card) (hlen : cards.length = 7) :
    evaluate7 cards = bestHandRank cards := by
  unfold evaluate7 bestHandRank
  rw [hlen]
  have h : getCombos 7 = COMBOS_7_5 := by
    unfold getCombos
    rfl
  rw [h]

/-- C6 counterexample: the claim, for 5 distinct cards, requires the 7-card best-hand
selector evaluate7 to enumerate the (single) 5-card subset and return its maximum, i.e.
evaluate7 of these 5 cards = some (evaluate5 of the same 5 cards). Instead evaluate7 always
indexes through the 21 7-choose-5 index combinations, reads past the 5-card input (a crash,
modeled as none), and returns no maximum. -/
theorem claim_C6_counterexample :
    evaluate7 [Card.mk Rank.r2 Suit.s, Card.mk Rank.r3 Suit.s, Card.mk Rank.r4 Suit.s,
        Card.mk Rank.r5 Suit.s, Card.mk Rank.r7 Suit.h] = none
    ∧ evaluate7 [Card.mk Rank.r2 Suit.s, Card.mk Rank.r3 Suit.s, Card.mk Rank.r4 Suit.s,
        Card.mk Rank.r5 Suit.s, Card.mk Rank.r7 Suit.h] ≠
      some (evaluate5 [Card.mk Rank.r2 Suit.s, Card.mk Rank.r3 Suit.s, Card.mk Rank.r4 Suit.s,
        Card.mk Rank.r5 Suit.s, Card.mk Rank.r7 Suit.h]) := by
  constructor <;> decide

/-- C6 (amended): the enumerate-all-5-card-subsets-and-take-the-maximum computation
(bestHandRank, the loop used by getBestHandLabel, driven by getCombos) satisfies the claim
for every 5 to 7 distinct cards: it returns a rank r that equals evaluate5 of some 5-card
subset and compares greater-or-equal to evaluate5 of every 5-card subset; getCombos
enumerates exactly the sorted index combinations of the input (21 for 7 cards, 6 for 6,
1 for 5); and for exactly 7 cards evaluate7 agrees with this computation. evaluate7 itself,
applied to fewer than 7 cards, crashes instead of enumerating fewer subsets. -/
theorem claim_C6_enumerates_subsets_max (cards : List Card) (h5 : 5 ≤ cards.length)
    (h7 : cards.length ≤ 7) (hnd : cards.Nodup) :
    ∃ r, bestHandRank cards = some r
      ∧ (∃ hand, hand.Sublist cards ∧ hand.length = 5 ∧ r = evaluate5 hand)
      ∧ (∀ hand, hand.Sublist cards → hand.length = 5 → 0 ≤ compareRanks r (evaluate5 hand))
      ∧ (∀ combo ∈ getCombos cards.length,
          ∃ hand, pick cards combo = some hand ∧ hand.Sublist cards ∧ hand.length = 5)
      ∧ (∀ hand, hand.Sublist cards → hand.length = 5 →
          ∃ combo ∈ getCombos cards.length, pick cards combo = some hand)
      ∧ (getCombos 7).length = 21 ∧ (getCombos 6).length = 6 ∧ (getCombos 5).length = 1
      ∧ (cards.length = 7 → evaluate7 cards = bestHandRank cards) := by
  obtain ⟨r, hr, hex, hall⟩ := bestHandRank_spec cards h5
  refine ⟨r, hr, hex, hall, ?_, ?_, by decide, by decide, by decide,
    fun hlen => evaluate7_eq_bestHandRank cards hlen⟩
  · intro combo hc
    obtain ⟨hlen, hsort, hbnd⟩ := (mem_getCombos _ combo).1 hc
    obtain ⟨hand, hpk, hsub, hhl⟩ := pick_sorted_sublist combo.length combo cards rfl hsort hbnd
    exact ⟨hand, hpk, hsub, by omega⟩
  · intro hand hsub hhl
    obtain ⟨combo, hsort, hbnd, hclen, hpk⟩ := exists_combo_of_sublist hsub
    exact ⟨combo, (mem_getCombos _ combo).2 ⟨by omega, hsort, hbnd⟩, hpk⟩

/-- C6 witness: the amended C6 applied to a concrete 6-card hand. -/
theorem claim_C6_witness :
    ∃ r, bestHandRank [Card.mk Rank.rA Suit.s, Card.mk Rank.rK Suit.s, Card.mk Rank.rQ Suit.s,
        Card.mk Rank.rJ Suit.s, Card.mk Rank.rT Suit.s, Card.mk Rank.r9 Suit.h] = some r
      ∧ ∃ hand, hand.Sublist [Card.mk Rank.rA Suit.s, Card.mk Rank.rK Suit.s,
          Card.mk Rank.rQ Suit.s, Card.mk Rank.rJ Suit.s, Card.mk Rank.rT Suit.s,
          Card.mk Rank.r9 Suit.h] ∧ hand.length = 5 ∧ r = evaluate5 hand := by
  obtain ⟨r, h1, h2, _⟩ := claim_C6_enumerates_subsets_max
    [Card.mk Rank.rA Suit.s, Card.mk Rank.rK Suit.s, Card.mk Rank.rQ Suit.s,
      Card.mk Rank.rJ Suit.s, Card.mk Rank.rT Suit.s, Card.mk Rank.r9 Suit.h]
    (by decide) (by decide) (by decide)
  exact ⟨r, h1, h2⟩

/-! ## Sorting and grouping infrastructure -/

instance : IsTotal Nat fun a b => b ≤ a := ⟨fun a b => le_total b a⟩

instance : IsTrans Nat fun a b => b ≤ a := ⟨fun _ _ _ h1 h2 => le_trans h2 h1⟩

instance : IsAntisymm Nat fun a b => b ≤ a := ⟨fun _ _ h1 h2 => le_antisymm h2 h1⟩

instance : IsTotal (Nat × Nat) groupLE := ⟨by
  intro a b
  unfold groupLE
  omega⟩

instance : IsTrans (Nat × Nat) groupLE := ⟨by
  intro a b c h1 h2
  unfold groupLE at *
  omega⟩

instance : IsAntisymm (Nat × Nat) groupLE := ⟨by
  intro a b h1 h2
  unfold groupLE at *
  have h3 : a.1 = b.1 ∧ a.2 = b.2 := by omega
  exact Prod.ext h3.1 h3.2⟩

theorem sortDesc_perm (l : List Nat) : (sortDesc l).Perm l :=
  List.perm_insertionSort _ l

theorem sortDesc_sorted (l : List Nat) : (sortDesc l).Sorted fun a b => b ≤ a :=
  List.sorted_insertionSort _ l

theorem sortDesc_eq_of_perm (l m : List Nat) (hp : l.Perm m)
    (hs : m.Sorted fun a b => b ≤ a) : sortDesc l = m :=
  List.eq_of_perm_of_sorted ((sortDesc_perm l).trans hp) (sortDesc_sorted l) hs

theorem sortGroups_perm (l : List (Nat × Nat)) : (sortGroups l).Perm l :=
  List.perm_insertionSort _ l

theorem sortGroups_sorted (l : List (Nat × Nat)) : List.Pairwise groupLE (sortGroups l) :=
  List.sorted_insertionSort _ l

theorem dedupFirst_go_mem (l : List Nat) :
    ∀ (acc : List Nat) (x : Nat),
      x ∈ l.foldl (fun acc x => if x ∈ acc then acc else acc ++ [x]) acc ↔ x ∈ acc ∨ x ∈ l := by
  induction l with
  | nil =>
    intro acc x
    simp
  | cons y t ih =>
    intro acc x
    rw [List.foldl_cons, ih]
    by_cases hy : y ∈ acc
    · rw [if_pos hy]
      constructor
      · rintro (h | h)
        · exact Or.inl h
        · exact Or.inr (by simp [h])
      · rintro (h | h)
        · exact Or.inl h
        · rcases List.mem_cons.1 h with rfl | h2
          · exact Or.inl hy
          · exact Or.inr h2
    · rw [if_neg hy]
      simp only [List.mem_append, List.mem_singleton, List.mem_cons]
      tauto

theorem dedupFirst_mem (l : List Nat) (x : Nat) : x ∈ dedupFirst l ↔ x ∈ l := by
  unfold dedupFirst
  rw [dedupFirst_go_mem]
  simp

theorem dedupFirst_go_nodup (l : List Nat) :
    ∀ acc : List Nat, acc.Nodup →
      (l.foldl (fun acc x => if x ∈ acc then acc else acc ++ [x]) acc).Nodup := by
  induction l with
  | nil =>
    intro acc h
    simpa using h
  | cons y t ih =>
    intro acc h
    rw [List.foldl_cons]
    by_cases hy : y ∈ acc
    · rw [if_pos hy]
      exact ih acc h
    · rw [if_neg hy]
      apply ih
      rw [List.nodup_append]
      exact ⟨h, List.nodup_singleton y, by simpa using hy⟩

theorem dedupFirst_nodup (l : List Nat) : (dedupFirst l).Nodup :=
  dedupFirst_go_nodup l [] List.nodup_nil

theorem dedupFirst_perm_dedup (l : List Nat) : (dedupFirst l).Perm l.dedup := by
  apply List.Subperm.antisymm
  · apply List.subperm_of_subset (dedupFirst_nodup l)
    intro x hx
    rw [List.mem_dedup]
    exact (dedupFirst_mem l x).1 hx
  · apply List.subperm_of_subset (List.nodup_dedup l)
    intro x hx
    rw [dedupFirst_mem]
    exact List.mem_dedup.1 hx

theorem dedupFirst_count_sum (rs : List Nat) :
    ((dedupFirst rs).map fun k => rs.count k).sum = rs.length := by
  have h1 : ((dedupFirst rs).map fun k => rs.count k).Perm
      (rs.dedup.map fun k => rs.count k) := (dedupFirst_perm_dedup rs).map _
  rw [h1.sum_eq]
  exact List.sum_map_count_dedup_eq_length rs

theorem mem_rankCounts (rs : List Nat) (g : Nat × Nat) :
    g ∈ rankCounts rs ↔ g.1 ∈ rs ∧ g.2 = rs.count g.1 := by
  unfold rankCounts
  rw [List.mem_map]
  constructor
  · rintro ⟨k, hk, rfl⟩
    exact ⟨(dedupFirst_mem rs k).1 hk, rfl⟩
  · rintro ⟨h1, h2⟩
    exact ⟨g.1, (dedupFirst_mem rs g.1).2 h1, by rw [← h2]⟩

theorem mem_sortGroups_counts (rs : List Nat) (g : Nat × Nat) :
    g ∈ sortGroups (rankCounts rs) ↔ g.1 ∈ rs ∧ g.2 = rs.count g.1 := by
  rw [(sortGroups_perm (rankCounts rs)).mem_iff]
  exact mem_rankCounts rs g

theorem sortGroups_ne_nil (rs : List Nat) (h : rs ≠ []) : sortGroups (rankCounts rs) ≠ [] := by
  obtain ⟨x, t, rfl⟩ := List.exists_cons_of_ne_nil h
  exact List.ne_nil_of_mem
    ((mem_sortGroups_counts (x :: t) (x, (x :: t).count x)).2 ⟨by simp, rfl⟩)

theorem rankCounts_fst (rs : List Nat) : (rankCounts rs).map Prod.fst = dedupFirst rs := by
  unfold rankCounts
  rw [List.map_map]
  have hid : (Prod.fst ∘ fun k : Nat => (k, rs.count k)) = id := rfl
  rw [hid, List.map_id]

theorem sortGroups_fst_nodup (rs : List Nat) :
    ((sortGroups (rankCounts rs)).map Prod.fst).Nodup := by
  have hp := (sortGroups_perm (rankCounts rs)).map Prod.fst
  rw [hp.nodup_iff, rankCounts_fst]
  exact dedupFirst_nodup rs

theorem sortGroups_snd_sum (rs : List Nat) :
    ((sortGroups (rankCounts rs)).map Prod.snd).sum = rs.length := by
  have hp := (sortGroups_perm (rankCounts rs)).map Prod.snd
  rw [hp.sum_eq]
  unfold rankCounts
  rw [List.map_map]
  have : (Prod.snd ∘ fun k => (k, rs.count k)) = fun k => rs.count k := rfl
  rw [this]
  exact dedupFirst_count_sum rs

theorem RANK_VALUE_inj (r1 r2 : Rank) (h : RANK_VALUE r1 = RANK_VALUE r2) : r1 = r2 := by
  cases r1 <;> cases r2 <;> first | rfl | exact absurd h (by decide)

theorem RANK_VALUE_bounds (r : Rank) : 2 ≤ RANK_VALUE r ∧ RANK_VALUE r ≤ 14 := by
  cases r <;> decide

theorem count_rank_le_four (cards : List Card) (hnd : cards.Nodup) (v : Nat) :
    (cards.map fun c => RANK_VALUE c.rank).count v ≤ 4 := by
  rw [List.count_eq_countP, List.countP_map, List.countP_eq_length_filter]
  set fl := cards.filter ((fun x => x == v) ∘ fun c => RANK_VALUE c.rank) with hfl
  have hflnd : fl.Nodup := (List.filter_sublist cards).nodup hnd
  have hsuit : (fl.map Card.suit).Nodup := by
    apply List.Nodup.map_on ?_ hflnd
    intro c1 h1 c2 h2 hsv
    have hv1 := List.of_mem_filter h1
    have hv2 := List.of_mem_filter h2
    simp only [Function.comp, beq_iff_eq] at hv1 hv2
    rcases c1 with ⟨r1, s1⟩
    rcases c2 with ⟨r2, s2⟩
    have : r1 = r2 := RANK_VALUE_inj r1 r2 (by rw [hv1, hv2])
    simp only at hsv
    rw [this, hsv]
  have hsub : fl.map Card.suit ⊆ SUITS := by
    intro s _
    cases s <;> decide
  have := (List.subperm_of_subset hsuit hsub).length_le
  simpa using this

theorem flush_ranks_nodup (cards : List Card) (hnd : cards.Nodup)
    (hf : isFlush cards = true) : (cards.map fun c => RANK_VALUE c.rank).Nodup := by
  apply List.Nodup.map_on ?_ hnd
  intro c1 h1 c2 h2 hv
  rcases cards with _ | ⟨c0, rest⟩
  · simp at h1
  · unfold isFlush at hf
    rw [List.all_eq_true] at hf
    have hs1 := hf c1 h1
    have hs2 := hf c2 h2
    simp only [beq_iff_eq] at hs1 hs2
    rcases c1 with ⟨r1, s1⟩
    rcases c2 with ⟨r2, s2⟩
    simp only at hs1 hs2 hv
    rw [RANK_VALUE_inj r1 r2 hv, hs1, hs2]

theorem groupLE_snd {a c b d : Nat} (h : groupLE (a, c) (b, d)) : d ≤ c := by
  unfold groupLE at h
  simp only at h
  omega

theorem groupLE_fst_of_snd_eq {a c b : Nat} (h : groupLE (a, c) (b, c)) (hne : a ≠ b) :
    b < a := by
  unfold groupLE at h
  simp only at h
  omega

theorem groups_shape (rs : List Nat) (h5 : rs.length = 5) (hc4 : ∀ v, rs.count v ≤ 4) :
    (∃ q k, q ≠ k ∧ sortGroups (rankCounts rs) = [(q, 4), (k, 1)]) ∨
    (∃ t p, t ≠ p ∧ sortGroups (rankCounts rs) = [(t, 3), (p, 2)]) ∨
    (∃ t k1 k2, t ≠ k1 ∧ t ≠ k2 ∧ k2 < k1 ∧
      sortGroups (rankCounts rs) = [(t, 3), (k1, 1), (k2, 1)]) ∨
    (∃ p1 p2 k, p2 < p1 ∧ k ≠ p1 ∧ k ≠ p2 ∧
      sortGroups (rankCounts rs) = [(p1, 2), (p2, 2), (k, 1)]) ∨
    (∃ p k1 k2 k3, p ≠ k1 ∧ p ≠ k2 ∧ p ≠ k3 ∧ k3 < k2 ∧ k2 < k1 ∧
      sortGroups (rankCounts rs) = [(p, 2), (k1, 1), (k2, 1), (k3, 1)]) ∨
    (∃ a b c d e, e < d ∧ d < c ∧ c < b ∧ b < a ∧
      sortGroups (rankCounts rs) = [(a, 1), (b, 1), (c, 1), (d, 1), (e, 1)]) := by
  have hsum : ((sortGroups (rankCounts rs)).map Prod.snd).sum = 5 := by
    rw [sortGroups_snd_sum, h5]
  have hpos : ∀ g ∈ sortGroups (rankCounts rs), 1 ≤ g.2 := by
    intro g hg
    have h := (mem_sortGroups_counts rs g).1 hg
    have h2 : 0 < rs.count g.1 := List.count_pos_iff.2 h.1
    omega
  have hle4 : ∀ g ∈ sortGroups (rankCounts rs), g.2 ≤ 4 := by
    intro g hg
    have h := (mem_sortGroups_counts rs g).1 hg
    rw [h.2]
    exact hc4 g.1
  have hsort := sortGroups_sorted (rankCounts rs)
  have hndf := sortGroups_fst_nodup rs
  rcases hG : sortGroups (rankCounts rs) with _ | ⟨⟨a0, c0⟩, G1⟩
  · rw [hG] at hsum
    simp at hsum
  rw [hG] at hsum hpos hle4 hsort hndf
  rcases G1 with _ | ⟨⟨a1, c1⟩, G2⟩
  · have h0 := hle4 (a0, c0) (by simp)
    simp at hsum h0
    omega
  rcases G2 with _ | ⟨⟨a2, c2⟩, G3⟩
  · -- two groups
    have h0p := hpos (a0, c0) (by simp)
    have h1p := hpos (a1, c1) (by simp)
    have h0le := hle4 (a0, c0) (by simp)
    have h1le := hle4 (a1, c1) (by simp)
    simp only [List.map_cons, List.map_nil, List.sum_cons, List.sum_nil, add_zero] at hsum
    simp only at h0p h1p h0le h1le
    have hle01 : c1 ≤ c0 := by
      rw [List.pairwise_cons] at hsort
      exact groupLE_snd (hsort.1 (a1, c1) (by simp))
    have hne01 : a0 ≠ a1 := by
      simp only [List.map_cons, List.map_nil, List.nodup_cons] at hndf
      simp at hndf
      exact hndf
    have hcase : (c0 = 4 ∧ c1 = 1) ∨ (c0 = 3 ∧ c1 = 2) := by omega
    rcases hcase with ⟨rfl, rfl⟩ | ⟨rfl, rfl⟩
    · exact Or.inl ⟨a0, a1, hne01, rfl⟩
    · exact Or.inr (Or.inl ⟨a0, a1, hne01, rfl⟩)
  rcases G3 with _ | ⟨⟨a3, c3⟩, G4⟩
  · -- three groups
    have h0p := hpos (a0, c0) (by simp)
    have h1p := hpos (a1, c1) (by simp)
    have h2p := hpos (a2, c2) (by simp)
    simp only [List.map_cons, List.map_nil, List.sum_cons, List.sum_nil, add_zero] at hsum
    simp only at h0p h1p h2p
    simp only [List.pairwise_cons] at hsort
    have hle01 : c1 ≤ c0 := groupLE_snd (hsort.1 (a1, c1) (by simp))
    have hle12 : c2 ≤ c1 := groupLE_snd (hsort.2.1 (a2, c2) (by simp))
    simp only [List.map_cons, List.map_nil, List.nodup_cons, List.mem_cons,
      List.mem_singleton, List.not_mem_nil, or_false, not_or] at hndf
    have hne01 : a0 ≠ a1 := hndf.1.1
    have hne02 : a0 ≠ a2 := hndf.1.2
    have hne12 : a1 ≠ a2 := hndf.2.1
    have hcase : (c0 = 3 ∧ c1 = 1 ∧ c2 = 1) ∨ (c0 = 2 ∧ c1 = 2 ∧ c2 = 1) := by omega
    rcases hcase with ⟨rfl, rfl, rfl⟩ | ⟨rfl, rfl, rfl⟩
    · have h21 : a2 < a1 :=
        groupLE_fst_of_snd_eq (hsort.2.1 (a2, 1) (by simp)) hne12
      exact Or.inr (Or.inr (Or.inl ⟨a0, a1, a2, hne01, hne02, h21, rfl⟩))
    · have h10 : a1 < a0 :=
        groupLE_fst_of_snd_eq (hsort.1 (a1, 2) (by simp)) hne01
      exact Or.inr (Or.inr (Or.inr (Or.inl
        ⟨a0, a1, a2, h10, fun h => hne02 h.symm, fun h => hne12 h.symm, rfl⟩)))
  rcases G4 with _ | ⟨⟨a4, c4⟩, G5⟩
  · -- four groups
    have h0p := hpos (a0, c0) (by simp)
    have h1p := hpos (a1, c1) (by simp)
    have h2p := hpos (a2, c2) (by simp)
    have h3p := hpos (a3, c3) (by simp)
    simp only [List.map_cons, List.map_nil, List.sum_cons, List.sum_nil, add_zero] at hsum
    simp only at h0p h1p h2p h3p
    simp only [List.pairwise_cons] at hsort
    have hle01 : c1 ≤ c0 := groupLE_snd (hsort.1 (a1, c1) (by simp))
    have hle12 : c2 ≤ c1 := groupLE_snd (hsort.2.1 (a2, c2) (by simp))
    have hle23 : c3 ≤ c2 := groupLE_snd (hsort.2.2.1 (a3, c3) (by simp))
    simp only [List.map_cons, List.map_nil, List.nodup_cons, List.mem_cons,
      List.mem_singleton, List.not_mem_nil, or_false, not_or] at hndf
    have hcase : c0 = 2 ∧ c1 = 1 ∧ c2 = 1 ∧ c3 = 1 := by omega
    obtain ⟨rfl, rfl, rfl, rfl⟩ := hcase
    have h21 : a2 < a1 :=
      groupLE_fst_of_snd_eq (hsort.2.1 (a2, 1) (by simp)) hndf.2.1.1
    have h32 : a3 < a2 :=
      groupLE_fst_of_snd_eq (hsort.2.2.1 (a3, 1) (by simp)) hndf.2.2.1
    exact Or.inr (Or.inr (Or.inr (Or.inr (Or.inl
      ⟨a0, a1, a2, a3, hndf.1.1, hndf.1.2.1, hndf.1.2.2, h32, h21, rfl⟩))))
  rcases G5 with _ | ⟨⟨a5, c5⟩, G6⟩
  · -- five groups
    have h0p := hpos (a0, c0) (by simp)
    have h1p := hpos (a1, c1) (by simp)
    have h2p := hpos (a2, c2) (by simp)
    have h3p := hpos (a3, c3) (by simp)
    have h4p := hpos (a4, c4) (by simp)
    simp only [List.map_cons, List.map_nil, List.sum_cons, List.sum_nil, add_zero] at hsum
    simp only at h0p h1p h2p h3p h4p
    simp only [List.pairwise_cons] at hsort
    simp only [List.map_cons, List.map_nil, List.nodup_cons, List.mem_cons,
      List.mem_singleton, List.not_mem_nil, or_false, not_or] at hndf
    have hcase : c0 = 1 ∧ c1 = 1 ∧ c2 = 1 ∧ c3 = 1 ∧ c4 = 1 := by omega
    obtain ⟨rfl, rfl, rfl, rfl, rfl⟩ := hcase
    have h10 : a1 < a0 :=
      groupLE_fst_of_snd_eq (hsort.1 (a1, 1) (by simp)) hndf.1.1
    have h21 : a2 < a1 :=
      groupLE_fst_of_snd_eq (hsort.2.1 (a2, 1) (by simp)) hndf.2.1.1
    have h32 : a3 < a2 :=
      groupLE_fst_of_snd_eq (hsort.2.2.1 (a3, 1) (by simp)) hndf.2.2.1.1
    have h43 : a4 < a3 :=
      groupLE_fst_of_snd_eq (hsort.2.2.2.1 (a4, 1) (by simp)) hndf.2.2.2.1
    exact Or.inr (Or.inr (Or.inr (Or.inr (Or.inr
      ⟨a0, a1, a2, a3, a4, h43, h32, h21, h10, rfl⟩))))
  · -- six or more groups: impossible
    exfalso
    have h0p := hpos (a0, c0) (by simp)
    have h1p := hpos (a1, c1) (by simp)
    have h2p := hpos (a2, c2) (by simp)
    have h3p := hpos (a3, c3) (by simp)
    have h4p := hpos (a4, c4) (by simp)
    have h5p := hpos (a5, c5) (by simp)
    simp only [List.map_cons, List.sum_cons] at hsum
    simp only at h0p h1p h2p h3p h4p h5p
    have hnn : 0 ≤ (G6.map Prod.snd).sum := Nat.zero_le _
    omega

/-! ## Spec-side hand classification, modeled from the wording of the spec -/

def specFlush (cards : List Card) : Bool :=
  SUITS.any fun s => cards.all fun card => card.suit == s

def hasGroupOf (ranks : List Nat) (n : Nat) : Bool :=
  ranks.any fun r => ranks.count r == n

def hasTwoPairs (ranks : List Nat) : Bool :=
  decide (2 ≤ ((dedupFirst ranks).filter fun r => ranks.count r == 2).length)

def specStraightHigh (ranks : List Nat) : Option Nat :=
  match (loopRange 6 15).reverse.find?
      (fun r => (loopRange (r - 4) (r + 1)).all fun v => decide (v ∈ ranks)) with
  | some r => some r
  | none =>
    if [14, 5, 4, 3, 2].all (fun v => decide (v ∈ ranks)) then some 5 else none

def specCategoryCore (flush : Bool) (ranks : List Nat) : Nat :=
  if flush && (specStraightHigh ranks).isSome then 8
  else if hasGroupOf ranks 4 then 7
  else if hasGroupOf ranks 3 && hasGroupOf ranks 2 then 6
  else if flush then 5
  else if (specStraightHigh ranks).isSome then 4
  else if hasGroupOf ranks 3 then 3
  else if hasTwoPairs ranks then 2
  else if hasGroupOf ranks 2 then 1
  else 0

def specCategory (cards : List Card) : Nat :=
  specCategoryCore (specFlush cards) (cards.map fun card => RANK_VALUE card.rank)

def specGroupTiebreak (ranks : List Nat) : List Nat :=
  let ks := dedupFirst ranks
  let multis := sortGroups ((ks.filter fun k => 2 ≤ ranks.count k).map fun k => (k, ranks.count k))
  let kickers := sortDesc (ks.filter fun k => ranks.count k == 1)
  multis.map Prod.fst ++ kickers

def catLen : Nat → Nat
| 8 => 2
| 7 => 3
| 6 => 3
| 5 => 6
| 4 => 2
| 3 => 4
| 2 => 4
| 1 => 5
| _ => 6

/-! ## Straight-high: code vs spec -/



theorem sorted_sublist_of_subset (master : List Nat) :
    ∀ l : List Nat, l.Sorted (· > ·) → master.Sorted (· > ·) →
      (∀ x ∈ l, x ∈ master) → l.Sublist master := by
  induction master with
  | nil =>
    intro l _ _ hsub
    cases l with
    | nil => exact List.Sublist.refl []
    | cons a t => exact absurd (hsub a (by simp)) (by simp)
  | cons m ms ih =>
    intro l hl hm hsub
    cases l with
    | nil => exact List.nil_sublist _
    | cons a t =>
      rw [List.sorted_cons] at hl
      rw [List.sorted_cons] at hm
      rcases List.mem_cons.1 (hsub a (by simp)) with rfl | hams
      · apply List.Sublist.cons₂
        apply ih t hl.2 hm.2
        intro x hx
        have hxm := hsub x (List.mem_cons_of_mem a hx)
        have hxa := hl.1 x hx
        rcases List.mem_cons.1 hxm with rfl | h
        · omega
        · exact h
      · apply List.Sublist.cons
        apply ih (a :: t) (List.sorted_cons.2 hl) hm.2
        intro x hx
        have hxm := hsub x hx
        have ham := hm.1 a hams
        have hxa : x ≤ a := by
          rcases List.mem_cons.1 hx with rfl | h
          · omega
          · have := hl.1 x h
            omega
        rcases List.mem_cons.1 hxm with rfl | h
        · omega
        · exact h

theorem specStraightHigh_congr (rs1 rs2 : List Nat) (h : ∀ x, x ∈ rs1 ↔ x ∈ rs2) :
    specStraightHigh rs1 = specStraightHigh rs2 := by
  unfold specStraightHigh
  have hpred : (fun r => (loopRange (r - 4) (r + 1)).all fun v => decide (v ∈ rs1)) =
      (fun r => (loopRange (r - 4) (r + 1)).all fun v => decide (v ∈ rs2)) := by
    funext r
    have : (fun v => decide (v ∈ rs1)) = fun v => decide (v ∈ rs2) := by
      funext v
      simp [h v]
    rw [this]
  have hwheel : (fun v : Nat => decide (v ∈ rs1)) = fun v => decide (v ∈ rs2) := by
    funext v
    simp [h v]
  rw [hpred, hwheel]

theorem nodup_subset_length {l m : List Nat} (hnd : l.Nodup) (hsub : ∀ x ∈ l, x ∈ m) :
    l.length ≤ m.length :=
  (List.subperm_of_subset hnd hsub).length_le

theorem specStraightHigh_none_of_few (rs : List Nat) (h : (dedupFirst rs).length < 5) :
    specStraightHigh rs = none := by
  unfold specStraightHigh
  have hwin : ∀ w : List Nat, w.Nodup → w.length = 5 →
      ¬(w.all fun v => decide (v ∈ rs)) = true := by
    intro w hwnd hwlen hall
    rw [List.all_eq_true] at hall
    have : w.length ≤ (dedupFirst rs).length := by
      apply nodup_subset_length hwnd
      intro x hx
      rw [dedupFirst_mem]
      simpa using hall x hx
    omega
  rcases hfind : (loopRange 6 15).reverse.find?
      (fun r => (loopRange (r - 4) (r + 1)).all fun v => decide (v ∈ rs)) with _ | r
  · simp only []
    rw [if_neg]
    exact hwin [14, 5, 4, 3, 2] (by decide) (by decide)
  · exfalso
    have hp := List.find?_some hfind
    have hr : r ∈ loopRange 6 15 := List.mem_reverse.1 (List.mem_of_find?_eq_some hfind)
    rw [mem_loopRange] at hr
    apply hwin (loopRange (r - 4) (r + 1)) ?_ ?_ hp
    · exact List.nodup_range' _ _
    · unfold loopRange
      rw [List.length_range']
      omega

theorem perm_of_nodup_mem {l1 l2 : List Nat} (h1 : l1.Nodup) (h2 : l2.Nodup)
    (hm : ∀ x, x ∈ l1 ↔ x ∈ l2) : l1.Perm l2 :=
  List.Subperm.antisymm
    (List.subperm_of_subset h1 fun x hx => (hm x).1 hx)
    (List.subperm_of_subset h2 fun x hx => (hm x).2 hx)

theorem dedupFirst_perm_of_perm {l1 l2 : List Nat} (h : l1.Perm l2) :
    (dedupFirst l1).Perm (dedupFirst l2) :=
  perm_of_nodup_mem (dedupFirst_nodup l1) (dedupFirst_nodup l2) fun x => by
    rw [dedupFirst_mem, dedupFirst_mem]
    exact h.mem_iff

theorem dedupFirst_go_eq_of_nodup (l : List Nat) :
    ∀ acc : List Nat, (acc ++ l).Nodup →
      l.foldl (fun acc x => if x ∈ acc then acc else acc ++ [x]) acc = acc ++ l := by
  induction l with
  | nil =>
    intro acc _
    simp
  | cons y t ih =>
    intro acc h
    rw [List.foldl_cons]
    have hy : y ∉ acc := by
      intro hmem
      rw [List.nodup_append] at h
      exact h.2.2 hmem (by simp)
    rw [if_neg hy]
    have := ih (acc ++ [y]) (by simpa using h)
    rw [this]
    simp

theorem dedupFirst_eq_self_of_nodup (l : List Nat) (h : l.Nodup) : dedupFirst l = l := by
  unfold dedupFirst
  have := dedupFirst_go_eq_of_nodup l [] (by simpa using h)
  simpa using this

theorem sortDesc_eq_self_of_sorted (l : List Nat) (h : l.Sorted fun a b => b ≤ a) :
    sortDesc l = l :=
  sortDesc_eq_of_perm l l (List.Perm.refl l) h

theorem sortGroups_fst_perm_dedupFirst (rs : List Nat) :
    ((sortGroups (rankCounts rs)).map Prod.fst).Perm (dedupFirst rs) := by
  have h := (sortGroups_perm (rankCounts rs)).map Prod.fst
  rw [rankCounts_fst] at h
  exact h

theorem find?_desc_first (p : Nat → Bool) (a : Nat) :
    ∀ l : List Nat, l.Sorted (· > ·) → a ∈ l → p a = true →
      (∀ x ∈ l, a < x → p x = false) → l.find? p = some a := by
  intro l
  induction l with
  | nil =>
    intro _ h
    simp at h
  | cons m ms ih =>
    intro hs hm hpa hhi
    rw [List.sorted_cons] at hs
    rcases List.mem_cons.1 hm with rfl | hams
    · exact List.find?_cons_of_pos ms hpa
    · have ham : a < m := hs.1 a hams
      have hpm : p m = false := hhi m (by simp) ham
      rw [List.find?_cons_of_neg ms (by simp [hpm])]
      exact ih hs.2 hams hpa fun x hx hax => hhi x (by simp [hx]) hax

theorem sorted_gt_nodup {l : List Nat} (h : l.Sorted (· > ·)) : l.Nodup :=
  h.imp fun hab => by omega

theorem straightScan_five (a b c d e : Nat) :
    straightScan [a, b, c, d, e] =
      if (a : Int) - (e : Int) = 4 then some a else none := by
  by_cases h : (a : Int) - (e : Int) = 4 <;> simp [straightScan, h]

theorem getStraightHigh_eq_spec (D : List Nat) (hs : D.Sorted (· > ·)) (hlen : D.length = 5)
    (hbnd : ∀ x ∈ D, 2 ≤ x ∧ x ≤ 14) :
    getStraightHigh D = specStraightHigh D := by
  obtain ⟨a, b, c, d, e, rfl⟩ : ∃ a b c d e, D = [a, b, c, d, e] := by
    rcases D with _ | ⟨a, _ | ⟨b, _ | ⟨c, _ | ⟨d, _ | ⟨e, _ | ⟨f, t⟩⟩⟩⟩⟩⟩ <;>
      first
      | exact ⟨a, b, c, d, e, rfl⟩
      | (exfalso; simp at hlen)
      | (exfalso; simp at hlen; omega)
  have hnd : ([a, b, c, d, e] : List Nat).Nodup := sorted_gt_nodup hs
  have hded : dedupFirst [a, b, c, d, e] = [a, b, c, d, e] :=
    dedupFirst_eq_self_of_nodup _ hnd
  have hsd : sortDesc [a, b, c, d, e] = [a, b, c, d, e] :=
    sortDesc_eq_self_of_sorted _ (hs.imp fun h => le_of_lt h)
  have hchain : b < a ∧ c < b ∧ d < c ∧ e < d := by
    refine ⟨List.rel_of_sorted_cons hs b (by simp), ?_, ?_, ?_⟩
    · exact List.rel_of_sorted_cons hs.of_cons c (by simp)
    · exact List.rel_of_sorted_cons hs.of_cons.of_cons d (by simp)
    · exact List.rel_of_sorted_cons hs.of_cons.of_cons.of_cons e (by simp)
  obtain ⟨hba, hcb, hdc, hed⟩ := hchain
  have hbnda := hbnd a (by simp)
  have hbnde := hbnd e (by simp)
  have hcode : getStraightHigh [a, b, c, d, e] =
      if (a : Int) - (e : Int) = 4 then some a
      else
        if [a, b, c, d, e].contains 14 && [a, b, c, d, e].contains 5 &&
            [a, b, c, d, e].contains 4 && [a, b, c, d, e].contains 3 &&
            [a, b, c, d, e].contains 2 then
          some 5
        else none := by
    unfold getStraightHigh
    rw [if_neg (by simp)]
    rw [hded, hsd]
    simp only [straightScan_five]
    by_cases h : (a : Int) - (e : Int) = 4
    · rw [if_pos h, if_pos h]
    · rw [if_neg h, if_neg h]
  rw [hcode]
  have hrange : (loopRange 6 15).reverse = [14, 13, 12, 11, 10, 9, 8, 7, 6] := by decide
  by_cases hae : (a : Int) - (e : Int) = 4
  · rw [if_pos hae]
    have he4 : a = e + 4 := by omega
    have hb3 : b = e + 3 := by omega
    have hc2 : c = e + 2 := by omega
    have hd1 : d = e + 1 := by omega
    subst he4 hb3 hc2 hd1
    have hfind : (loopRange 6 15).reverse.find?
        (fun r => (loopRange (r - 4) (r + 1)).all fun v =>
          decide (v ∈ ([e + 4, e + 3, e + 2, e + 1, e] : List Nat))) = some (e + 4) := by
      rw [hrange]
      apply find?_desc_first
      · decide
      · simp only [List.mem_cons, List.not_mem_nil, or_false]
        omega
      · rw [List.all_eq_true]
        intro v hv
        rw [mem_loopRange] at hv
        simp only [List.mem_cons, List.not_mem_nil, or_false, decide_eq_true_eq]
        omega
      · intro x hx hgt
        rw [Bool.eq_false_iff]
        intro htrue
        rw [List.all_eq_true] at htrue
        have hxw : x ∈ loopRange (x - 4) (x + 1) := by
          rw [mem_loopRange]
          simp only [List.mem_cons, List.not_mem_nil, or_false] at hx
          omega
        have := htrue x hxw
        simp only [List.mem_cons, List.not_mem_nil, or_false, decide_eq_true_eq] at this
        omega
    unfold specStraightHigh
    rw [hfind]
  · rw [if_neg hae]
    have hfind : (loopRange 6 15).reverse.find?
        (fun r => (loopRange (r - 4) (r + 1)).all fun v =>
          decide (v ∈ ([a, b, c, d, e] : List Nat))) = none := by
      rw [List.find?_eq_none]
      intro r hr hpr
      rw [List.all_eq_true] at hpr
      have hsubs : ∀ v ∈ loopRange (r - 4) (r + 1), v ∈ ([a, b, c, d, e] : List Nat) := by
        intro v hv
        simpa using hpr v hv
      rw [List.mem_reverse, mem_loopRange] at hr
      have hwnd : (loopRange (r - 4) (r + 1)).Nodup := List.nodup_range' _ _
      have hwlen : (loopRange (r - 4) (r + 1)).length = 5 := by
        unfold loopRange
        rw [List.length_range']
        omega
      have hperm : (loopRange (r - 4) (r + 1)).Perm [a, b, c, d, e] :=
        (List.subperm_of_subset hwnd hsubs).perm_of_length_le (by simp [hwlen])
      have hmem : ∀ x ∈ ([a, b, c, d, e] : List Nat), r - 4 ≤ x ∧ x ≤ r := by
        intro x hx
        have hx2 := hperm.mem_iff.2 hx
        rw [mem_loopRange] at hx2
        omega
      have hma := hmem a (by simp)
      have hmb := hmem b (by simp)
      have hmc := hmem c (by simp)
      have hmd := hmem d (by simp)
      have hme := hmem e (by simp)
      omega
    unfold specStraightHigh
    rw [hfind]
    have hwheel : ([a, b, c, d, e].contains 14 && [a, b, c, d, e].contains 5 &&
        [a, b, c, d, e].contains 4 && [a, b, c, d, e].contains 3 &&
        [a, b, c, d, e].contains 2)
        = [14, 5, 4, 3, 2].all fun v => decide (v ∈ ([a, b, c, d, e] : List Nat)) := by
      rw [Bool.eq_iff_iff]
      simp only [Bool.and_eq_true, List.all_eq_true, List.mem_cons, List.not_mem_nil, or_false,
        decide_eq_true_eq, List.contains_eq_any_beq, List.any_eq_true, beq_iff_eq]
      constructor
      · rintro ⟨⟨⟨⟨h14, h5⟩, h4⟩, h3⟩, h2⟩ v hv
        rcases hv with rfl | rfl | rfl | rfl | rfl
        · obtain ⟨x, hx, rfl⟩ := h14
          simpa using hx
        · obtain ⟨x, hx, rfl⟩ := h5
          simpa using hx
        · obtain ⟨x, hx, rfl⟩ := h4
          simpa using hx
        · obtain ⟨x, hx, rfl⟩ := h3
          simpa using hx
        · obtain ⟨x, hx, rfl⟩ := h2
          simpa using hx
      · intro h
        refine ⟨⟨⟨⟨?_, ?_⟩, ?_⟩, ?_⟩, ?_⟩
        · have hv := h 14 (by simp)
          rcases hv with rfl | rfl | rfl | rfl | rfl <;> exact ⟨_, by simp, rfl⟩
        · have hv := h 5 (by simp)
          rcases hv with rfl | rfl | rfl | rfl | rfl <;> exact ⟨_, by simp, rfl⟩
        · have hv := h 4 (by simp)
          rcases hv with rfl | rfl | rfl | rfl | rfl <;> exact ⟨_, by simp, rfl⟩
        · have hv := h 3 (by simp)
          rcases hv with rfl | rfl | rfl | rfl | rfl <;> exact ⟨_, by simp, rfl⟩
        · have hv := h 2 (by simp)
          rcases hv with rfl | rfl | rfl | rfl | rfl <;> exact ⟨_, by simp, rfl⟩
    rw [hwheel]

/-! ## Per-branch evaluation lemmas -/

theorem getStraightHigh_sortDesc_dedup_none (rs : List Nat) (h : (dedupFirst rs).length < 5) :
    getStraightHigh (sortDesc (dedupFirst rs)) = none := by
  unfold getStraightHigh
  rw [if_pos]
  rw [(sortDesc_perm (dedupFirst rs)).length_eq]
  exact h

theorem sortGroups_eq_of_perm (l m : List (Nat × Nat)) (hp : l.Perm m)
    (hs : List.Pairwise groupLE m) : sortGroups l = m :=
  List.eq_of_perm_of_sorted ((sortGroups_perm l).trans hp) (sortGroups_sorted l) hs

theorem evalRanks_case1 (rs : List Nat) (q k : Nat)
    (hG : sortGroups (rankCounts rs) = [(q, 4), (k, 1)])
    (hdedlt : (dedupFirst rs).length < 5) :
    evalRanks rs false = [7, q, k] := by
  simp only [evalRanks, getStraightHigh_sortDesc_dedup_none rs hdedlt, hG]
  norm_num

theorem evalRanks_case2 (rs : List Nat) (t p : Nat)
    (hG : sortGroups (rankCounts rs) = [(t, 3), (p, 2)])
    (hdedlt : (dedupFirst rs).length < 5) :
    evalRanks rs false = [6, t, p] := by
  simp only [evalRanks, getStraightHigh_sortDesc_dedup_none rs hdedlt, hG]
  norm_num

theorem sortedDesc_two (k1 k2 : Nat) (h : k2 ≤ k1) :
    ([k1, k2] : List Nat).Sorted fun a b => b ≤ a := by
  refine List.Pairwise.cons ?_ (List.pairwise_singleton _ _)
  intro b hb
  simp only [List.mem_cons, List.not_mem_nil, or_false] at hb
  omega

theorem sortedDesc_three (k1 k2 k3 : Nat) (h32 : k3 ≤ k2) (h21 : k2 ≤ k1) :
    ([k1, k2, k3] : List Nat).Sorted fun a b => b ≤ a := by
  refine List.Pairwise.cons ?_ (sortedDesc_two k2 k3 h32)
  intro b hb
  simp only [List.mem_cons, List.not_mem_nil, or_false] at hb
  omega

theorem evalRanks_case3 (rs : List Nat) (t k1 k2 : Nat) (hk : k2 < k1)
    (hG : sortGroups (rankCounts rs) = [(t, 3), (k1, 1), (k2, 1)])
    (hdedlt : (dedupFirst rs).length < 5) :
    evalRanks rs false = [3, t, k1, k2] := by
  simp only [evalRanks, getStraightHigh_sortDesc_dedup_none rs hdedlt, hG]
  norm_num
  exact sortDesc_eq_self_of_sorted _ (sortedDesc_two k1 k2 (by omega))

theorem evalRanks_case4 (rs : List Nat) (p1 p2 k : Nat) (hp : p2 < p1)
    (hG : sortGroups (rankCounts rs) = [(p1, 2), (p2, 2), (k, 1)])
    (hdedlt : (dedupFirst rs).length < 5) :
    evalRanks rs false = [2, p1, p2, k] := by
  simp only [evalRanks, getStraightHigh_sortDesc_dedup_none rs hdedlt, hG]
  norm_num
  omega

theorem evalRanks_case5 (rs : List Nat) (p k1 k2 k3 : Nat) (h32 : k3 < k2) (h21 : k2 < k1)
    (hG : sortGroups (rankCounts rs) = [(p, 2), (k1, 1), (k2, 1), (k3, 1)])
    (hdedlt : (dedupFirst rs).length < 5) :
    evalRanks rs false = [1, p, k1, k2, k3] := by
  simp only [evalRanks, getStraightHigh_sortDesc_dedup_none rs hdedlt, hG]
  norm_num
  exact sortDesc_eq_self_of_sorted _ (sortedDesc_three k1 k2 k3 (by omega) (by omega))

theorem evalRanks_case6_sf (rs : List Nat) (a b c d e sh : Nat)
    (hG : sortGroups (rankCounts rs) = [(a, 1), (b, 1), (c, 1), (d, 1), (e, 1)])
    (hsh : getStraightHigh (sortDesc (dedupFirst rs)) = some sh) :
    evalRanks rs true = [8, sh] := by
  simp only [evalRanks, hsh]
  norm_num

theorem evalRanks_case6_flush (rs : List Nat) (a b c d e : Nat)
    (hG : sortGroups (rankCounts rs) = [(a, 1), (b, 1), (c, 1), (d, 1), (e, 1)])
    (hsh : getStraightHigh (sortDesc (dedupFirst rs)) = none) :
    evalRanks rs true = 5 :: rs := by
  simp only [evalRanks, hsh, hG]
  norm_num

theorem evalRanks_case6_straight (rs : List Nat) (a b c d e sh : Nat)
    (hG : sortGroups (rankCounts rs) = [(a, 1), (b, 1), (c, 1), (d, 1), (e, 1)])
    (hsh : getStraightHigh (sortDesc (dedupFirst rs)) = some sh) :
    evalRanks rs false = [4, sh] := by
  simp only [evalRanks, hsh, hG]
  norm_num

theorem evalRanks_case6_high (rs : List Nat) (a b c d e : Nat)
    (hG : sortGroups (rankCounts rs) = [(a, 1), (b, 1), (c, 1), (d, 1), (e, 1)])
    (hsh : getStraightHigh (sortDesc (dedupFirst rs)) = none) :
    evalRanks rs false = 0 :: rs := by
  simp only [evalRanks, hsh, hG]
  norm_num

/-! ## Main evaluator correctness -/

theorem hasGroupOf_true (rs : List Nat) (n r : Nat) (hr : r ∈ rs) (hc : rs.count r = n) :
    hasGroupOf rs n = true := by
  unfold hasGroupOf
  rw [List.any_eq_true]
  exact ⟨r, hr, by simp [hc]⟩

theorem hasGroupOf_false (rs : List Nat) (n : Nat) (h : ∀ r ∈ rs, rs.count r ≠ n) :
    hasGroupOf rs n = false := by
  unfold hasGroupOf
  rw [Bool.eq_false_iff, Ne, List.any_eq_true]
  rintro ⟨r, hr, hc⟩
  exact h r hr (by simpa using hc)

theorem specFlush_eq_isFlush (cards : List Card) : specFlush cards = isFlush cards := by
  cases cards with
  | nil => decide
  | cons c0 rest =>
    rw [Bool.eq_iff_iff]
    unfold specFlush isFlush
    simp only [List.any_eq_true, List.all_eq_true, beq_iff_eq]
    constructor
    · rintro ⟨s, _, hall⟩ card hc
      rw [hall card hc, hall c0 (by simp)]
    · intro hall
      refine ⟨c0.suit, ?_, hall⟩
      have hmem : ∀ s : Suit, s ∈ SUITS := by
        intro s
        cases s <;> decide
      exact hmem c0.suit

theorem specGroupTiebreak_compute (rk : List Nat) (ml : List (Nat × Nat)) (kl : List Nat)
    (h1 : (((dedupFirst rk).filter fun k => decide (2 ≤ rk.count k)).map
        fun k => (k, rk.count k)).Perm ml)
    (h2 : List.Pairwise groupLE ml)
    (h3 : ((dedupFirst rk).filter fun k => rk.count k == 1).Perm kl)
    (h4 : kl.Sorted fun a b => b ≤ a) :
    specGroupTiebreak rk = ml.map Prod.fst ++ kl := by
  show (sortGroups (((dedupFirst rk).filter fun k => decide (2 ≤ rk.count k)).map
      fun k => (k, rk.count k))).map Prod.fst ++
    sortDesc ((dedupFirst rk).filter fun k => rk.count k == 1) = ml.map Prod.fst ++ kl
  rw [sortGroups_eq_of_perm _ ml h1 h2, sortDesc_eq_of_perm _ kl h3 h4]

theorem mem_sortGroups_mk (rs : List Nat) (a c : Nat) :
    (a, c) ∈ sortGroups (rankCounts rs) ↔ a ∈ rs ∧ c = rs.count a :=
  mem_sortGroups_counts rs (a, c)

theorem groupLE_of (a c b d : Nat) (h : d < c ∨ (c = d ∧ b ≤ a)) : groupLE (a, c) (b, d) := h

theorem pairwise_groupLE_two (g1 g2 : Nat × Nat) (h : groupLE g1 g2) :
    List.Pairwise groupLE [g1, g2] := by
  refine List.Pairwise.cons ?_ (List.pairwise_singleton _ _)
  intro x hx
  rw [List.mem_singleton] at hx
  subst hx
  exact h

theorem pairwise_groupLE_three (g1 g2 g3 : Nat × Nat) (h12 : groupLE g1 g2)
    (h13 : groupLE g1 g3) (h23 : groupLE g2 g3) :
    List.Pairwise groupLE [g1, g2, g3] := by
  refine List.Pairwise.cons ?_ (pairwise_groupLE_two g2 g3 h23)
  intro x hx
  simp only [List.mem_cons, List.not_mem_nil, or_false] at hx
  rcases hx with rfl | rfl
  · exact h12
  · exact h13

theorem eval_core (rk : List Nat) (fl : Bool) (hlen : rk.length = 5)
    (hc4 : ∀ v, rk.count v ≤ 4) (hfl_nodup : fl = true → rk.Nodup)
    (hbnd : ∀ x ∈ rk, 2 ≤ x ∧ x ≤ 14) :
    (evalRanks (sortDesc rk) fl).headD 0 = specCategoryCore fl rk
    ∧ ((specCategoryCore fl rk = 7 ∨ specCategoryCore fl rk = 6 ∨ specCategoryCore fl rk = 3 ∨
        specCategoryCore fl rk = 2 ∨ specCategoryCore fl rk = 1) →
        (evalRanks (sortDesc rk) fl).tail = specGroupTiebreak rk)
    ∧ ((specCategoryCore fl rk = 5 ∨ specCategoryCore fl rk = 0) →
        (evalRanks (sortDesc rk) fl).tail = sortDesc rk)
    ∧ (evalRanks (sortDesc rk) fl).length = catLen ((evalRanks (sortDesc rk) fl).headD 0) := by
  have hcnt : ∀ v, (sortDesc rk).count v = rk.count v := fun v => (sortDesc_perm rk).count_eq v
  have hlen5 : (sortDesc rk).length = 5 := by rw [(sortDesc_perm rk).length_eq, hlen]
  have hc4s : ∀ v, (sortDesc rk).count v ≤ 4 := fun v => by rw [hcnt v]; exact hc4 v
  rcases groups_shape (sortDesc rk) hlen5 hc4s with
    ⟨q, k, hqk, hG⟩ | ⟨t, p, htp, hG⟩ | ⟨t, k1, k2, ht1, ht2, h21, hG⟩ |
    ⟨p1, p2, k, h21, hk1, hk2, hG⟩ | ⟨p, k1, k2, k3, hp1, hp2, hp3, h32, h21, hG⟩ |
    ⟨a, b, c, d, e, hed, hdc, hcb, hba, hG⟩
  · -- four of a kind
    have hqm := (mem_sortGroups_mk (sortDesc rk) q 4).1 (by rw [hG]; simp)
    have hkm := (mem_sortGroups_mk (sortDesc rk) k 1).1 (by rw [hG]; simp)
    have hq0 : rk.count q = 4 := by rw [← hcnt]; omega
    have hk0 : rk.count k = 1 := by rw [← hcnt]; omega
    have hqm0 : q ∈ rk := (sortDesc_perm rk).mem_iff.1 hqm.1
    have hchar : ∀ r ∈ rk, rk.count r = 4 ∨ rk.count r = 1 := by
      intro r hr
      have hr2 : r ∈ sortDesc rk := (sortDesc_perm rk).mem_iff.2 hr
      have hmem := (mem_sortGroups_mk (sortDesc rk) r ((sortDesc rk).count r)).2 ⟨hr2, rfl⟩
      rw [hG] at hmem
      simp only [List.mem_cons, List.not_mem_nil, or_false, Prod.mk.injEq] at hmem
      rcases hmem with ⟨rfl, h⟩ | ⟨rfl, h⟩
      · left
        rw [← hcnt]
        exact h
      · right
        rw [← hcnt]
        exact h
    have hdperm : (dedupFirst (sortDesc rk)).Perm [q, k] := by
      have h := sortGroups_fst_perm_dedupFirst (sortDesc rk)
      rw [hG] at h
      exact (by simpa using h : ([q, k] : List Nat).Perm (dedupFirst (sortDesc rk))).symm
    have hddlt : (dedupFirst (sortDesc rk)).length < 5 := by
      rw [hdperm.length_eq]
      simp
    have hd0perm : (dedupFirst rk).Perm [q, k] :=
      (dedupFirst_perm_of_perm (sortDesc_perm rk).symm).trans hdperm
    cases fl with
    | true =>
      exfalso
      have hn := hfl_nodup rfl
      rw [List.nodup_iff_count_le_one] at hn
      have := hn q
      omega
    | false =>
      have hval : evalRanks (sortDesc rk) false = [7, q, k] := evalRanks_case1 _ q k hG hddlt
      have hssn : specStraightHigh rk = none :=
        specStraightHigh_none_of_few rk (by rw [hd0perm.length_eq]; simp)
      have hg4 : hasGroupOf rk 4 = true := hasGroupOf_true rk 4 q hqm0 hq0
      have hcat : specCategoryCore false rk = 7 := by
        simp [specCategoryCore, hg4]
      have htb : specGroupTiebreak rk = [q, k] := by
        have hfe : ([q, k].filter fun x => decide (2 ≤ rk.count x)) = [q] := by
          simp [List.filter_cons, hq0, hk0]
        have hml : (((dedupFirst rk).filter fun x => decide (2 ≤ rk.count x)).map
            fun x => (x, rk.count x)).Perm [(q, 4)] := by
          have hf := hd0perm.filter fun x => decide (2 ≤ rk.count x)
          rw [hfe] at hf
          have := hf.map fun x => (x, rk.count x)
          simpa [hq0] using this
        have hke : ([q, k].filter fun x => rk.count x == 1) = [k] := by
          simp [List.filter_cons, hq0, hk0]
        have hkl : ((dedupFirst rk).filter fun x => rk.count x == 1).Perm [k] := by
          have hf := hd0perm.filter fun x => rk.count x == 1
          rw [hke] at hf
          exact hf
        have := specGroupTiebreak_compute rk [(q, 4)] [k] hml
          (List.pairwise_singleton _ _) hkl (List.sorted_singleton k)
        simpa using this
      rw [hval, hcat, htb]
      exact ⟨rfl, fun _ => rfl, fun h => by omega, rfl⟩
  · -- full house
    have htm := (mem_sortGroups_mk (sortDesc rk) t 3).1 (by rw [hG]; simp)
    have hpm := (mem_sortGroups_mk (sortDesc rk) p 2).1 (by rw [hG]; simp)
    have ht0 : rk.count t = 3 := by rw [← hcnt]; omega
    have hp0 : rk.count p = 2 := by rw [← hcnt]; omega
    have htm0 : t ∈ rk := (sortDesc_perm rk).mem_iff.1 htm.1
    have hpm0 : p ∈ rk := (sortDesc_perm rk).mem_iff.1 hpm.1
    have hchar : ∀ r ∈ rk, rk.count r = 3 ∨ rk.count r = 2 := by
      intro r hr
      have hr2 : r ∈ sortDesc rk := (sortDesc_perm rk).mem_iff.2 hr
      have hmem := (mem_sortGroups_mk (sortDesc rk) r ((sortDesc rk).count r)).2 ⟨hr2, rfl⟩
      rw [hG] at hmem
      simp only [List.mem_cons, List.not_mem_nil, or_false, Prod.mk.injEq] at hmem
      rcases hmem with ⟨rfl, h⟩ | ⟨rfl, h⟩
      · left
        rw [← hcnt]
        exact h
      · right
        rw [← hcnt]
        exact h
    have hdperm : (dedupFirst (sortDesc rk)).Perm [t, p] := by
      have h := sortGroups_fst_perm_dedupFirst (sortDesc rk)
      rw [hG] at h
      exact (by simpa using h : ([t, p] : List Nat).Perm (dedupFirst (sortDesc rk))).symm
    have hddlt : (dedupFirst (sortDesc rk)).length < 5 := by
      rw [hdperm.length_eq]
      simp
    have hd0perm : (dedupFirst rk).Perm [t, p] :=
      (dedupFirst_perm_of_perm (sortDesc_perm rk).symm).trans hdperm
    cases fl with
    | true =>
      exfalso
      have hn := hfl_nodup rfl
      rw [List.nodup_iff_count_le_one] at hn
      have := hn t
      omega
    | false =>
      have hval : evalRanks (sortDesc rk) false = [6, t, p] := evalRanks_case2 _ t p hG hddlt
      have hssn : specStraightHigh rk = none :=
        specStraightHigh_none_of_few rk (by rw [hd0perm.length_eq]; simp)
      have hg4 : hasGroupOf rk 4 = false :=
        hasGroupOf_false rk 4 fun r hr => by rcases hchar r hr with h | h <;> omega
      have hg3 : hasGroupOf rk 3 = true := hasGroupOf_true rk 3 t htm0 ht0
      have hg2 : hasGroupOf rk 2 = true := hasGroupOf_true rk 2 p hpm0 hp0
      have hcat : specCategoryCore false rk = 6 := by
        simp [specCategoryCore, hg4, hg3, hg2]
      have htb : specGroupTiebreak rk = [t, p] := by
        have hfe : ([t, p].filter fun x => decide (2 ≤ rk.count x)) = [t, p] := by
          simp [List.filter_cons, ht0, hp0]
        have hml : (((dedupFirst rk).filter fun x => decide (2 ≤ rk.count x)).map
            fun x => (x, rk.count x)).Perm [(t, 3), (p, 2)] := by
          have hf := hd0perm.filter fun x => decide (2 ≤ rk.count x)
          rw [hfe] at hf
          have := hf.map fun x => (x, rk.count x)
          simpa [ht0, hp0] using this
        have hke : ([t, p].filter fun x => rk.count x == 1) = [] := by
          simp [List.filter_cons, ht0, hp0]
        have hkl : ((dedupFirst rk).filter fun x => rk.count x == 1).Perm [] := by
          have hf := hd0perm.filter fun x => rk.count x == 1
          rw [hke] at hf
          exact hf
        have := specGroupTiebreak_compute rk [(t, 3), (p, 2)] [] hml
          (pairwise_groupLE_two _ _ (groupLE_of t 3 p 2 (by omega))) hkl (by simp)
        simpa using this
      rw [hval, hcat, htb]
      exact ⟨rfl, fun _ => rfl, fun h => by omega, rfl⟩
  · -- three of a kind
    have htm := (mem_sortGroups_mk (sortDesc rk) t 3).1 (by rw [hG]; simp)
    have hk1m := (mem_sortGroups_mk (sortDesc rk) k1 1).1 (by rw [hG]; simp)
    have hk2m := (mem_sortGroups_mk (sortDesc rk) k2 1).1 (by rw [hG]; simp)
    have ht0 : rk.count t = 3 := by rw [← hcnt]; omega
    have hk10 : rk.count k1 = 1 := by rw [← hcnt]; omega
    have hk20 : rk.count k2 = 1 := by rw [← hcnt]; omega
    have htm0 : t ∈ rk := (sortDesc_perm rk).mem_iff.1 htm.1
    have hchar : ∀ r ∈ rk, rk.count r = 3 ∨ rk.count r = 1 := by
      intro r hr
      have hr2 : r ∈ sortDesc rk := (sortDesc_perm rk).mem_iff.2 hr
      have hmem := (mem_sortGroups_mk (sortDesc rk) r ((sortDesc rk).count r)).2 ⟨hr2, rfl⟩
      rw [hG] at hmem
      simp only [List.mem_cons, List.not_mem_nil, or_false, Prod.mk.injEq] at hmem
      rcases hmem with ⟨rfl, h⟩ | ⟨rfl, h⟩ | ⟨rfl, h⟩
      · left
        rw [← hcnt]
        exact h
      · right
        rw [← hcnt]
        exact h
      · right
        rw [← hcnt]
        exact h
    have hdperm : (dedupFirst (sortDesc rk)).Perm [t, k1, k2] := by
      have h := sortGroups_fst_perm_dedupFirst (sortDesc rk)
      rw [hG] at h
      exact (by simpa using h : ([t, k1, k2] : List Nat).Perm (dedupFirst (sortDesc rk))).symm
    have hddlt : (dedupFirst (sortDesc rk)).length < 5 := by
      rw [hdperm.length_eq]
      simp
    have hd0perm : (dedupFirst rk).Perm [t, k1, k2] :=
      (dedupFirst_perm_of_perm (sortDesc_perm rk).symm).trans hdperm
    cases fl with
    | true =>
      exfalso
      have hn := hfl_nodup rfl
      rw [List.nodup_iff_count_le_one] at hn
      have := hn t
      omega
    | false =>
      have hval : evalRanks (sortDesc rk) false = [3, t, k1, k2] :=
        evalRanks_case3 _ t k1 k2 h21 hG hddlt
      have hssn : specStraightHigh rk = none :=
        specStraightHigh_none_of_few rk (by rw [hd0perm.length_eq]; simp)
      have hg4 : hasGroupOf rk 4 = false :=
        hasGroupOf_false rk 4 fun r hr => by rcases hchar r hr with h | h <;> omega
      have hg2 : hasGroupOf rk 2 = false :=
        hasGroupOf_false rk 2 fun r hr => by rcases hchar r hr with h | h <;> omega
      have hg3 : hasGroupOf rk 3 = true := hasGroupOf_true rk 3 t htm0 ht0
      have hcat : specCategoryCore false rk = 3 := by
        simp [specCategoryCore, hg4, hg3, hg2, hssn]
      have htb : specGroupTiebreak rk = [t, k1, k2] := by
        have hfe : ([t, k1, k2].filter fun x => decide (2 ≤ rk.count x)) = [t] := by
          simp [List.filter_cons, ht0, hk10, hk20]
        have hml : (((dedupFirst rk).filter fun x => decide (2 ≤ rk.count x)).map
            fun x => (x, rk.count x)).Perm [(t, 3)] := by
          have hf := hd0perm.filter fun x => decide (2 ≤ rk.count x)
          rw [hfe] at hf
          have := hf.map fun x => (x, rk.count x)
          simpa [ht0] using this
        have hke : ([t, k1, k2].filter fun x => rk.count x == 1) = [k1, k2] := by
          simp [List.filter_cons, ht0, hk10, hk20]
        have hkl : ((dedupFirst rk).filter fun x => rk.count x == 1).Perm [k1, k2] := by
          have hf := hd0perm.filter fun x => rk.count x == 1
          rw [hke] at hf
          exact hf
        have := specGroupTiebreak_compute rk [(t, 3)] [k1, k2] hml
          (List.pairwise_singleton _ _) hkl (sortedDesc_two k1 k2 (by omega))
        simpa using this
      rw [hval, hcat, htb]
      exact ⟨rfl, fun _ => rfl, fun h => by omega, rfl⟩
  · -- two pair
    have hp1m := (mem_sortGroups_mk (sortDesc rk) p1 2).1 (by rw [hG]; simp)
    have hp2m := (mem_sortGroups_mk (sortDesc rk) p2 2).1 (by rw [hG]; simp)
    have hkm := (mem_sortGroups_mk (sortDesc rk) k 1).1 (by rw [hG]; simp)
    have hp10 : rk.count p1 = 2 := by rw [← hcnt]; omega
    have hp20 : rk.count p2 = 2 := by rw [← hcnt]; omega
    have hk0 : rk.count k = 1 := by rw [← hcnt]; omega
    have hchar : ∀ r ∈ rk, rk.count r = 2 ∨ rk.count r = 1 := by
      intro r hr
      have hr2 : r ∈ sortDesc rk := (sortDesc_perm rk).mem_iff.2 hr
      have hmem := (mem_sortGroups_mk (sortDesc rk) r ((sortDesc rk).count r)).2 ⟨hr2, rfl⟩
      rw [hG] at hmem
      simp only [List.mem_cons, List.not_mem_nil, or_false, Prod.mk.injEq] at hmem
      rcases hmem with ⟨rfl, h⟩ | ⟨rfl, h⟩ | ⟨rfl, h⟩
      · left
        rw [← hcnt]
        exact h
      · left
        rw [← hcnt]
        exact h
      · right
        rw [← hcnt]
        exact h
    have hdperm : (dedupFirst (sortDesc rk)).Perm [p1, p2, k] := by
      have h := sortGroups_fst_perm_dedupFirst (sortDesc rk)
      rw [hG] at h
      exact (by simpa using h : ([p1, p2, k] : List Nat).Perm (dedupFirst (sortDesc rk))).symm
    have hddlt : (dedupFirst (sortDesc rk)).length < 5 := by
      rw [hdperm.length_eq]
      simp
    have hd0perm : (dedupFirst rk).Perm [p1, p2, k] :=
      (dedupFirst_perm_of_perm (sortDesc_perm rk).symm).trans hdperm
    cases fl with
    | true =>
      exfalso
      have hn := hfl_nodup rfl
      rw [List.nodup_iff_count_le_one] at hn
      have := hn p1
      omega
    | false =>
      have hval : evalRanks (sortDesc rk) false = [2, p1, p2, k] :=
        evalRanks_case4 _ p1 p2 k h21 hG hddlt
      have hssn : specStraightHigh rk = none :=
        specStraightHigh_none_of_few rk (by rw [hd0perm.length_eq]; simp)
      have hg4 : hasGroupOf rk 4 = false :=
        hasGroupOf_false rk 4 fun r hr => by rcases hchar r hr with h | h <;> omega
      have hg3 : hasGroupOf rk 3 = false :=
        hasGroupOf_false rk 3 fun r hr => by rcases hchar r hr with h | h <;> omega
      have hfe : ([p1, p2, k].filter fun x => decide (2 ≤ rk.count x)) = [p1, p2] := by
        simp [List.filter_cons, hp10, hp20, hk0]
      have hfperm : ((dedupFirst rk).filter fun x => decide (2 ≤ rk.count x)).Perm [p1, p2] := by
        have hf := hd0perm.filter fun x => decide (2 ≤ rk.count x)
        rw [hfe] at hf
        exact hf
      have hfe2 : ([p1, p2, k].filter fun r => rk.count r == 2) = [p1, p2] := by
        simp [List.filter_cons, hp10, hp20, hk0]
      have hfperm2 : ((dedupFirst rk).filter fun r => rk.count r == 2).Perm [p1, p2] := by
        have hf := hd0perm.filter fun r => rk.count r == 2
        rw [hfe2] at hf
        exact hf
      have htp2 : hasTwoPairs rk = true := by
        unfold hasTwoPairs
        rw [hfperm2.length_eq]
        rfl
      have hcat : specCategoryCore false rk = 2 := by
        simp [specCategoryCore, hg4, hg3, hssn, htp2]
      have htb : specGroupTiebreak rk = [p1, p2, k] := by
        have hml : (((dedupFirst rk).filter fun x => decide (2 ≤ rk.count x)).map
            fun x => (x, rk.count x)).Perm [(p1, 2), (p2, 2)] := by
          have := hfperm.map fun x => (x, rk.count x)
          simpa [hp10, hp20] using this
        have hke : ([p1, p2, k].filter fun x => rk.count x == 1) = [k] := by
          simp [List.filter_cons, hp10, hp20, hk0]
        have hkl : ((dedupFirst rk).filter fun x => rk.count x == 1).Perm [k] := by
          have hf := hd0perm.filter fun x => rk.count x == 1
          rw [hke] at hf
          exact hf
        have := specGroupTiebreak_compute rk [(p1, 2), (p2, 2)] [k] hml
          (pairwise_groupLE_two _ _ (groupLE_of p1 2 p2 2 (by omega))) hkl
          (List.sorted_singleton k)
        simpa using this
      rw [hval, hcat, htb]
      exact ⟨rfl, fun _ => rfl, fun h => by omega, rfl⟩
  · -- one pair
    have hpm := (mem_sortGroups_mk (sortDesc rk) p 2).1 (by rw [hG]; simp)
    have hk1m := (mem_sortGroups_mk (sortDesc rk) k1 1).1 (by rw [hG]; simp)
    have hk2m := (mem_sortGroups_mk (sortDesc rk) k2 1).1 (by rw [hG]; simp)
    have hk3m := (mem_sortGroups_mk (sortDesc rk) k3 1).1 (by rw [hG]; simp)
    have hp0 : rk.count p = 2 := by rw [← hcnt]; omega
    have hk10 : rk.count k1 = 1 := by rw [← hcnt]; omega
    have hk20 : rk.count k2 = 1 := by rw [← hcnt]; omega
    have hk30 : rk.count k3 = 1 := by rw [← hcnt]; omega
    have hpm0 : p ∈ rk := (sortDesc_perm rk).mem_iff.1 hpm.1
    have hchar : ∀ r ∈ rk, rk.count r = 2 ∨ rk.count r = 1 := by
      intro r hr
      have hr2 : r ∈ sortDesc rk := (sortDesc_perm rk).mem_iff.2 hr
      have hmem := (mem_sortGroups_mk (sortDesc rk) r ((sortDesc rk).count r)).2 ⟨hr2, rfl⟩
      rw [hG] at hmem
      simp only [List.mem_cons, List.not_mem_nil, or_false, Prod.mk.injEq] at hmem
      rcases hmem with ⟨rfl, h⟩ | ⟨rfl, h⟩ | ⟨rfl, h⟩ | ⟨rfl, h⟩
      · left
        rw [← hcnt]
        exact h
      · right
        rw [← hcnt]
        exact h
      · right
        rw [← hcnt]
        exact h
      · right
        rw [← hcnt]
        exact h
    have hdperm : (dedupFirst (sortDesc rk)).Perm [p, k1, k2, k3] := by
      have h := sortGroups_fst_perm_dedupFirst (sortDesc rk)
      rw [hG] at h
      exact (by simpa using h : ([p, k1, k2, k3] : List Nat).Perm (dedupFirst (sortDesc rk))).symm
    have hddlt : (dedupFirst (sortDesc rk)).length < 5 := by
      rw [hdperm.length_eq]
      simp
    have hd0perm : (dedupFirst rk).Perm [p, k1, k2, k3] :=
      (dedupFirst_perm_of_perm (sortDesc_perm rk).symm).trans hdperm
    cases fl with
    | true =>
      exfalso
      have hn := hfl_nodup rfl
      rw [List.nodup_iff_count_le_one] at hn
      have := hn p
      omega
    | false =>
      have hval : evalRanks (sortDesc rk) false = [1, p, k1, k2, k3] :=
        evalRanks_case5 _ p k1 k2 k3 h32 h21 hG hddlt
      have hssn : specStraightHigh rk = none :=
        specStraightHigh_none_of_few rk (by rw [hd0perm.length_eq]; simp)
      have hg4 : hasGroupOf rk 4 = false :=
        hasGroupOf_false rk 4 fun r hr => by rcases hchar r hr with h | h <;> omega
      have hg3 : hasGroupOf rk 3 = false :=
        hasGroupOf_false rk 3 fun r hr => by rcases hchar r hr with h | h <;> omega
      have hg2 : hasGroupOf rk 2 = true := hasGroupOf_true rk 2 p hpm0 hp0
      have hfe : ([p, k1, k2, k3].filter fun x => decide (2 ≤ rk.count x)) = [p] := by
        simp [List.filter_cons, hp0, hk10, hk20, hk30]
      have hfperm : ((dedupFirst rk).filter fun x => decide (2 ≤ rk.count x)).Perm [p] := by
        have hf := hd0perm.filter fun x => decide (2 ≤ rk.count x)
        rw [hfe] at hf
        exact hf
      have hfe2 : ([p, k1, k2, k3].filter fun r => rk.count r == 2) = [p] := by
        simp [List.filter_cons, hp0, hk10, hk20, hk30]
      have hfperm2 : ((dedupFirst rk).filter fun r => rk.count r == 2).Perm [p] := by
        have hf := hd0perm.filter fun r => rk.count r == 2
        rw [hfe2] at hf
        exact hf
      have htpf : hasTwoPairs rk = false := by
        unfold hasTwoPairs
        rw [hfperm2.length_eq]
        rfl
      have hcat : specCategoryCore false rk = 1 := by
        simp [specCategoryCore, hg4, hg3, hg2, hssn, htpf]
      have htb : specGroupTiebreak rk = [p, k1, k2, k3] := by
        have hml : (((dedupFirst rk).filter fun x => decide (2 ≤ rk.count x)).map
            fun x => (x, rk.count x)).Perm [(p, 2)] := by
          have := hfperm.map fun x => (x, rk.count x)
          simpa [hp0] using this
        have hke : ([p, k1, k2, k3].filter fun x => rk.count x == 1) = [k1, k2, k3] := by
          simp [List.filter_cons, hp0, hk10, hk20, hk30]
        have hkl : ((dedupFirst rk).filter fun x => rk.count x == 1).Perm [k1, k2, k3] := by
          have hf := hd0perm.filter fun x => rk.count x == 1
          rw [hke] at hf
          exact hf
        have := specGroupTiebreak_compute rk [(p, 2)] [k1, k2, k3] hml
          (List.pairwise_singleton _ _) hkl
          (sortedDesc_three k1 k2 k3 (by omega) (by omega))
        simpa using this
      rw [hval, hcat, htb]
      exact ⟨rfl, fun _ => rfl, fun h => by omega, rfl⟩
  · -- all distinct
    have hchar : ∀ r ∈ rk, rk.count r = 1 := by
      intro r hr
      have hr2 : r ∈ sortDesc rk := (sortDesc_perm rk).mem_iff.2 hr
      have hmem := (mem_sortGroups_mk (sortDesc rk) r ((sortDesc rk).count r)).2 ⟨hr2, rfl⟩
      rw [hG] at hmem
      simp only [List.mem_cons, List.not_mem_nil, or_false, Prod.mk.injEq] at hmem
      rcases hmem with ⟨rfl, h⟩ | ⟨rfl, h⟩ | ⟨rfl, h⟩ | ⟨rfl, h⟩ | ⟨rfl, h⟩ <;>
        · rw [← hcnt]
          exact h
    have hnd_rk : rk.Nodup := by
      rw [List.nodup_iff_count_le_one]
      intro v
      by_cases hv : v ∈ rk
      · have := hchar v hv
        omega
      · rw [List.count_eq_zero.2 hv]
        omega
    have hsnd : (sortDesc rk).Nodup := ((sortDesc_perm rk).nodup_iff).2 hnd_rk
    have hkey : sortDesc (dedupFirst (sortDesc rk)) = sortDesc rk := by
      rw [dedupFirst_eq_self_of_nodup _ hsnd, sortDesc_eq_self_of_sorted _ (sortDesc_sorted rk)]
    have hgt : (sortDesc rk).Sorted (· > ·) := by
      have h1 := sortDesc_sorted rk
      have h2 : List.Pairwise (fun a b : Nat => a ≠ b) (sortDesc rk) := hsnd
      exact (h1.and h2).imp fun h => by omega
    have hbnds : ∀ x ∈ sortDesc rk, 2 ≤ x ∧ x ≤ 14 :=
      fun x hx => hbnd x ((sortDesc_perm rk).mem_iff.1 hx)
    have hsheq : getStraightHigh (sortDesc rk) = specStraightHigh rk := by
      rw [getStraightHigh_eq_spec (sortDesc rk) hgt hlen5 hbnds]
      exact specStraightHigh_congr _ _ fun x => (sortDesc_perm rk).mem_iff
    have hg4 : hasGroupOf rk 4 = false :=
      hasGroupOf_false rk 4 fun r hr => by have := hchar r hr; omega
    have hg3 : hasGroupOf rk 3 = false :=
      hasGroupOf_false rk 3 fun r hr => by have := hchar r hr; omega
    have hg2 : hasGroupOf rk 2 = false :=
      hasGroupOf_false rk 2 fun r hr => by have := hchar r hr; omega
    have hdperm : (dedupFirst (sortDesc rk)).Perm [a, b, c, d, e] := by
      have h := sortGroups_fst_perm_dedupFirst (sortDesc rk)
      rw [hG] at h
      exact (by simpa using h : ([a, b, c, d, e] : List Nat).Perm (dedupFirst (sortDesc rk))).symm
    have hd0perm : (dedupFirst rk).Perm [a, b, c, d, e] :=
      (dedupFirst_perm_of_perm (sortDesc_perm rk).symm).trans hdperm
    have haC : rk.count a = 1 := by
      have h := ((mem_sortGroups_mk (sortDesc rk) a 1).1 (by rw [hG]; simp)).2
      rw [← hcnt]
      omega
    have hbC : rk.count b = 1 := by
      have h := ((mem_sortGroups_mk (sortDesc rk) b 1).1 (by rw [hG]; simp)).2
      rw [← hcnt]
      omega
    have hcC : rk.count c = 1 := by
      have h := ((mem_sortGroups_mk (sortDesc rk) c 1).1 (by rw [hG]; simp)).2
      rw [← hcnt]
      omega
    have hdC : rk.count d = 1 := by
      have h := ((mem_sortGroups_mk (sortDesc rk) d 1).1 (by rw [hG]; simp)).2
      rw [← hcnt]
      omega
    have heC : rk.count e = 1 := by
      have h := ((mem_sortGroups_mk (sortDesc rk) e 1).1 (by rw [hG]; simp)).2
      rw [← hcnt]
      omega
    have hfe2 : ([a, b, c, d, e].filter fun r => rk.count r == 2) = [] := by
      simp [List.filter_cons, haC, hbC, hcC, hdC, heC]
    have hfperm2 : ((dedupFirst rk).filter fun r => rk.count r == 2).Perm [] := by
      have hf := hd0perm.filter fun r => rk.count r == 2
      rw [hfe2] at hf
      exact hf
    have htpf : hasTwoPairs rk = false := by
      unfold hasTwoPairs
      rw [hfperm2.length_eq]
      rfl
    rcases hsh : getStraightHigh (sortDesc rk) with _ | v
    · have hspc : specStraightHigh rk = none := by rw [← hsheq]; exact hsh
      cases fl with
      | true =>
        have hval : evalRanks (sortDesc rk) true = 5 :: sortDesc rk :=
          evalRanks_case6_flush (sortDesc rk) a b c d e hG (by rw [hkey]; exact hsh)
        have hcat : specCategoryCore true rk = 5 := by
          simp [specCategoryCore, hspc, hg4, hg3]
        rw [hval, hcat]
        refine ⟨rfl, fun h => by omega, fun _ => rfl, ?_⟩
        simp [catLen, hlen5]
      | false =>
        have hval : evalRanks (sortDesc rk) false = 0 :: sortDesc rk :=
          evalRanks_case6_high (sortDesc rk) a b c d e hG (by rw [hkey]; exact hsh)
        have hcat : specCategoryCore false rk = 0 := by
          simp [specCategoryCore, hspc, hg4, hg3, hg2, htpf]
        rw [hval, hcat]
        refine ⟨rfl, fun h => by omega, fun _ => rfl, ?_⟩
        simp [catLen, hlen5]
    · have hspc : specStraightHigh rk = some v := by rw [← hsheq]; exact hsh
      cases fl with
      | true =>
        have hval : evalRanks (sortDesc rk) true = [8, v] :=
          evalRanks_case6_sf (sortDesc rk) a b c d e v hG (by rw [hkey]; exact hsh)
        have hcat : specCategoryCore true rk = 8 := by
          simp [specCategoryCore, hspc]
        rw [hval, hcat]
        exact ⟨rfl, fun h => by omega, fun h => by omega, rfl⟩
      | false =>
        have hval : evalRanks (sortDesc rk) false = [4, v] :=
          evalRanks_case6_straight (sortDesc rk) a b c d e v hG (by rw [hkey]; exact hsh)
        have hcat : specCategoryCore false rk = 4 := by
          simp [specCategoryCore, hspc, hg4, hg3]
        rw [hval, hcat]
        exact ⟨rfl, fun h => by omega, fun h => by omega, rfl⟩


/-! ## Cards-level evaluator correctness -/

theorem evaluate5_main (cards : List Card) (hlen : cards.length = 5) (hnd : cards.Nodup) :
    (evaluate5 cards).headD 0 = specCategory cards
    ∧ ((specCategory cards = 7 ∨ specCategory cards = 6 ∨ specCategory cards = 3 ∨
        specCategory cards = 2 ∨ specCategory cards = 1) →
        (evaluate5 cards).tail = specGroupTiebreak (cards.map fun card => RANK_VALUE card.rank))
    ∧ ((specCategory cards = 5 ∨ specCategory cards = 0) →
        (evaluate5 cards).tail = sortDesc (cards.map fun card => RANK_VALUE card.rank))
    ∧ (evaluate5 cards).length = catLen ((evaluate5 cards).headD 0) := by
  have h := eval_core (cards.map fun card => RANK_VALUE card.rank) (isFlush cards)
    (by rw [List.length_map, hlen])
    (count_rank_le_four cards hnd)
    (fun hf => flush_ranks_nodup cards hnd hf)
    (by
      intro x hx
      rw [List.mem_map] at hx
      obtain ⟨c, _, rfl⟩ := hx
      exact RANK_VALUE_bounds c.rank)
  rw [evaluate5, specCategory, specFlush_eq_isFlush]
  exact h

def exampleC3 : List Card :=
  [⟨Rank.rK, Suit.s⟩, ⟨Rank.rK, Suit.h⟩, ⟨Rank.rK, Suit.d⟩, ⟨Rank.r9, Suit.c⟩,
   ⟨Rank.r9, Suit.s⟩]

/-- Claim C3: for every 5 distinct cards, the first element of the descriptor returned by
evaluate5 is the category determined by the spec's precedence chain (straight flush >
four-of-a-kind > full house > flush > straight > three-of-a-kind > two pair > one pair >
high card, each category characterised by its own predicate over the ranks, with the
highest applicable one chosen), and the tie-break elements after the category are, for the
grouped categories (four-of-a-kind, full house, trips, two pair, one pair), the rank of
each group in descending (count, then rank) order followed by ungrouped kicker ranks
descending, while for the flush and high-card categories they are all five ranks
descending. -/
theorem claim_C3_evaluate5_category_and_tiebreaks (cards : List Card)
    (hlen : cards.length = 5) (hnd : cards.Nodup) :
    (evaluate5 cards).headD 0 = specCategory cards
    ∧ ((specCategory cards = 7 ∨ specCategory cards = 6 ∨ specCategory cards = 3 ∨
        specCategory cards = 2 ∨ specCategory cards = 1) →
        (evaluate5 cards).tail = specGroupTiebreak (cards.map fun card => RANK_VALUE card.rank))
    ∧ ((specCategory cards = 5 ∨ specCategory cards = 0) →
        (evaluate5 cards).tail = sortDesc (cards.map fun card => RANK_VALUE card.rank)) := by
  obtain ⟨h1, h2, h3, _⟩ := evaluate5_main cards hlen hnd
  exact ⟨h1, h2, h3⟩

theorem claim_C3_witness :
    (exampleC3.length = 5 ∧ exampleC3.Nodup) ∧
      (evaluate5 exampleC3).headD 0 = specCategory exampleC3 :=
  ⟨by decide, (claim_C3_evaluate5_category_and_tiebreaks exampleC3 (by decide) (by decide)).1⟩

def exampleC8a : List Card :=
  [⟨Rank.rA, Suit.h⟩, ⟨Rank.rJ, Suit.h⟩, ⟨Rank.r9, Suit.h⟩, ⟨Rank.r6, Suit.h⟩,
   ⟨Rank.r3, Suit.h⟩]

def exampleC8b : List Card :=
  [⟨Rank.rQ, Suit.c⟩, ⟨Rank.rT, Suit.c⟩, ⟨Rank.r8, Suit.c⟩, ⟨Rank.r5, Suit.c⟩,
   ⟨Rank.r2, Suit.c⟩]

/-- Claim C8: for every 5 distinct cards, the length of the descriptor returned by
evaluate5 is a fixed function (catLen) of its category element alone; consequently two
descriptors with the same first element always have the same length, so the comparator's
zero-padding of a shorter descriptor can only occur when the categories already differ. -/
theorem claim_C8_descriptor_length_fixed_by_category (cards cards2 : List Card)
    (h1 : cards.length = 5) (hn1 : cards.Nodup)
    (h2 : cards2.length = 5) (hn2 : cards2.Nodup) :
    (evaluate5 cards).length = catLen ((evaluate5 cards).headD 0)
    ∧ ((evaluate5 cards).headD 0 = (evaluate5 cards2).headD 0 →
        (evaluate5 cards).length = (evaluate5 cards2).length) := by
  have ha := (evaluate5_main cards h1 hn1).2.2.2
  have hb := (evaluate5_main cards2 h2 hn2).2.2.2
  exact ⟨ha, fun h => by rw [ha, hb, h]⟩

theorem claim_C8_witness :
    (exampleC8a.length = 5 ∧ exampleC8a.Nodup ∧ exampleC8b.length = 5 ∧ exampleC8b.Nodup) ∧
      (evaluate5 exampleC8a).length = catLen ((evaluate5 exampleC8a).headD 0) :=
  ⟨by decide,
   (claim_C8_descriptor_length_fixed_by_category exampleC8a exampleC8b
     (by decide) (by decide) (by decide) (by decide)).1⟩

/-! ## Claim C5: wheel and straight-high -/

def exampleC5cards : List Card :=
  [⟨Rank.rA, Suit.s⟩, ⟨Rank.r2, Suit.h⟩, ⟨Rank.r3, Suit.d⟩, ⟨Rank.r4, Suit.c⟩,
   ⟨Rank.r5, Suit.s⟩]

def exampleC5rs : List Nat := [10, 12, 14, 11, 13]

/-- Claim C5: for 5 cards whose ranks are exactly {A,2,3,4,5} in mixed suits (not a
flush), evaluate5 returns the straight category (4) with straight-high 5, not 14 — the
ace plays low only in this wheel pattern; and for any other 5 distinct bounded ranks
(not a permutation of the wheel), the straight-high computed by getStraightHigh is the
result of scanning r = 14 down to 6 for the first r with r, r-1, r-2, r-3, r-4 all
present among the ranks. -/
theorem claim_C5_wheel_and_straight_high (cards : List Card) (rs : List Nat)
    (hperm : (cards.map fun card => RANK_VALUE card.rank).Perm [14, 5, 4, 3, 2])
    (hnf : isFlush cards = false)
    (hlen : rs.length = 5) (hnd : rs.Nodup) (hbnd : ∀ x ∈ rs, 2 ≤ x ∧ x ≤ 14)
    (hnw : ¬ rs.Perm [14, 5, 4, 3, 2]) :
    evaluate5 cards = [4, 5]
    ∧ getStraightHigh (sortDesc rs) = (loopRange 6 15).reverse.find?
        (fun r => (loopRange (r - 4) (r + 1)).all fun v => decide (v ∈ rs)) := by
  constructor
  · rw [evaluate5, hnf,
      sortDesc_eq_of_perm _ [14, 5, 4, 3, 2] hperm (by decide)]
    decide
  · have hgt : (sortDesc rs).Sorted (· > ·) := by
      have h1 := sortDesc_sorted rs
      have h2 : List.Pairwise (fun a b : Nat => a ≠ b) (sortDesc rs) :=
        ((sortDesc_perm rs).nodup_iff).2 hnd
      exact (h1.and h2).imp fun h => by omega
    have hlen5 : (sortDesc rs).length = 5 := by rw [(sortDesc_perm rs).length_eq, hlen]
    have hbnds : ∀ x ∈ sortDesc rs, 2 ≤ x ∧ x ≤ 14 :=
      fun x hx => hbnd x ((sortDesc_perm rs).mem_iff.1 hx)
    rw [getStraightHigh_eq_spec (sortDesc rs) hgt hlen5 hbnds,
      specStraightHigh_congr (sortDesc rs) rs fun x => (sortDesc_perm rs).mem_iff]
    have hw : ([14, 5, 4, 3, 2].all fun v => decide (v ∈ rs)) = false := by
      by_contra hcon
      rw [Bool.not_eq_false, List.all_eq_true] at hcon
      have hsub : List.Subperm [14, 5, 4, 3, 2] rs :=
        List.subperm_of_subset (by decide) fun x hx => by simpa using hcon x hx
      exact hnw (hsub.perm_of_length_le (by rw [hlen]; decide)).symm
    unfold specStraightHigh
    rcases hf : (loopRange 6 15).reverse.find?
        (fun r => (loopRange (r - 4) (r + 1)).all fun v => decide (v ∈ rs)) with _ | r
    · rw [hw]
      rfl
    · rfl

theorem claim_C5_witness :
    ((exampleC5cards.map fun card => RANK_VALUE card.rank).Perm [14, 5, 4, 3, 2]
      ∧ isFlush exampleC5cards = false
      ∧ exampleC5rs.length = 5 ∧ exampleC5rs.Nodup
      ∧ (∀ x ∈ exampleC5rs, 2 ≤ x ∧ x ≤ 14)
      ∧ ¬ exampleC5rs.Perm [14, 5, 4, 3, 2])
    ∧ evaluate5 exampleC5cards = [4, 5] :=
  ⟨by decide,
   (claim_C5_wheel_and_straight_high exampleC5cards exampleC5rs (by decide) (by decide)
     (by decide) (by decide) (by decide) (by decide)).1⟩

/-! ## Claim C10: best-hand label for fewer than 5 cards -/

def maxRankMult (cards : List Card) : Nat :=
  ((cards.map fun card => RANK_VALUE card.rank).map fun v =>
    (cards.map fun card => RANK_VALUE card.rank).count v).foldr max 0

theorem foldr_max_le (l : List Nat) (m : Nat) (hm : ∀ x ∈ l, x ≤ m) :
    l.foldr max 0 ≤ m := by
  induction l with
  | nil => exact Nat.zero_le m
  | cons a t ih =>
    simp only [List.foldr_cons]
    have ha := hm a (by simp)
    have ht := ih fun x hx => hm x (by simp [hx])
    omega

theorem le_foldr_max (l : List Nat) (x : Nat) (hx : x ∈ l) : x ≤ l.foldr max 0 := by
  induction l with
  | nil => simp at hx
  | cons a t ih =>
    simp only [List.foldr_cons]
    rcases List.mem_cons.1 hx with rfl | hx2
    · omega
    · have := ih hx2
      omega

theorem foldr_max_eq (l : List Nat) (m : Nat) (hm : ∀ x ∈ l, x ≤ m) (hmem : m ∈ l) :
    l.foldr max 0 = m :=
  Nat.le_antisymm (foldr_max_le l m hm) (le_foldr_max l m hmem)

theorem headD_sortDesc_eq_max (cards : List Card) :
    (sortDesc ((rankCounts (cards.map fun card => RANK_VALUE card.rank)).map Prod.snd)).headD 0
      = maxRankMult cards := by
  cases cards with
  | nil => rfl
  | cons c0 rest =>
    set rs := (c0 :: rest).map fun card => RANK_VALUE card.rank with hrs
    have hrsne : rs ≠ [] := by simp [hrs]
    have hdne : dedupFirst rs ≠ [] := by
      intro h
      rcases List.exists_mem_of_ne_nil rs hrsne with ⟨x, hx⟩
      have := dedupFirst_mem rs x
      rw [h] at this
      simp [hx] at this
    have hvne : sortDesc ((rankCounts rs).map Prod.snd) ≠ [] := by
      intro h
      have hlen := congrArg List.length h
      rw [(sortDesc_perm _).length_eq] at hlen
      simp [rankCounts] at hlen
      exact hdne hlen
    rcases hV : sortDesc ((rankCounts rs).map Prod.snd) with _ | ⟨v, t⟩
    · exact absurd hV hvne
    have hsor := sortDesc_sorted ((rankCounts rs).map Prod.snd)
    rw [hV] at hsor
    have hmax : ∀ x ∈ v :: t, x ≤ v := by
      intro x hx
      rcases List.mem_cons.1 hx with rfl | hx2
      · exact Nat.le_refl x
      · exact (List.pairwise_cons.1 hsor).1 x hx2
    have hperm := sortDesc_perm ((rankCounts rs).map Prod.snd)
    rw [hV] at hperm
    have hvmem : v ∈ (rankCounts rs).map Prod.snd := hperm.symm.mem_iff.2 (by simp)
    rw [List.mem_map] at hvmem
    obtain ⟨⟨k, c⟩, hkc, hvc⟩ := hvmem
    rw [mem_rankCounts] at hkc
    have hkrs : k ∈ rs := hkc.1
    have hvcount : v = rs.count k := by
      rw [← hvc]
      exact hkc.2
    have hgoal : maxRankMult (c0 :: rest) = (rs.map fun v => rs.count v).foldr max 0 := rfl
    rw [hgoal]
    simp only [List.headD_cons]
    apply (foldr_max_eq _ v ?_ ?_).symm
    · intro x hx
      rw [List.mem_map] at hx
      obtain ⟨u, hu, rfl⟩ := hx
      have hcm : rs.count u ∈ (rankCounts rs).map Prod.snd := by
        rw [List.mem_map]
        exact ⟨(u, rs.count u), (mem_rankCounts rs (u, rs.count u)).2 ⟨hu, rfl⟩, rfl⟩
      exact hmax _ (hperm.mem_iff.2 hcm)
    · rw [hvcount, List.mem_map]
      exact ⟨k, hkrs, rfl⟩

/-- Claim C10: for every list of 0 to 4 distinct cards, getBestHandLabel depends only on
the maximum rank multiplicity m among the cards: it returns "One Pair" iff m = 2,
"Three of a Kind" iff m = 3, and "High Card" in every other case (including the empty
input, a single card, four of one rank, and two pairs among 4 cards, labeled "One
Pair"). -/
theorem claim_C10_label_by_max_multiplicity (cards : List Card)
    (hlen : cards.length ≤ 4) (hnd : cards.Nodup) :
    (getBestHandLabel cards = "One Pair" ↔ maxRankMult cards = 2)
    ∧ (getBestHandLabel cards = "Three of a Kind" ↔ maxRankMult cards = 3)
    ∧ (maxRankMult cards ≠ 2 → maxRankMult cards ≠ 3 →
        getBestHandLabel cards = "High Card") := by
  have h5 : cards.length < 5 := by omega
  have hlab : getBestHandLabel cards =
      (if maxRankMult cards = 2 then "One Pair"
       else if maxRankMult cards = 3 then "Three of a Kind" else "High Card") := by
    rw [getBestHandLabel, if_pos h5]
    show (if (sortDesc ((rankCounts (cards.map fun card => RANK_VALUE card.rank)).map
        Prod.snd)).headD 0 = 2 then "One Pair"
      else if (sortDesc ((rankCounts (cards.map fun card => RANK_VALUE card.rank)).map
        Prod.snd)).headD 0 = 3 then "Three of a Kind" else "High Card") = _
    rw [headD_sortDesc_eq_max]
  refine ⟨?_, ?_, fun hn2 hn3 => ?_⟩ <;> rw [hlab] <;>
    by_cases h2 : maxRankMult cards = 2 <;> by_cases h3 : maxRankMult cards = 3 <;>
    simp [h2, h3] <;> first | omega | decide

def exampleC10 : List Card :=
  [⟨Rank.rK, Suit.s⟩, ⟨Rank.rK, Suit.h⟩, ⟨Rank.r9, Suit.d⟩, ⟨Rank.r9, Suit.c⟩]

theorem claim_C10_witness :
    (exampleC10.length ≤ 4 ∧ exampleC10.Nodup) ∧
      (getBestHandLabel exampleC10 = "One Pair" ↔ maxRankMult exampleC10 = 2) :=
  ⟨by decide, (claim_C10_label_by_max_multiplicity exampleC10 (by decide) (by decide)).1⟩

/-! ## Winner-set analysis -/

def scanStep (heroless : List Nat × List Int) (p : Nat × List Nat) : List Nat × List Int :=
  let cmp := compareRanks p.2 heroless.1
  if cmp > 0 then (p.2, [(p.1 : Int)])
  else if cmp = 0 then (heroless.1, heroless.2 ++ [(p.1 : Int)])
  else heroless

theorem scanWinners_eq_foldl (heroRank : List Nat) (oppRanks : List (List Nat)) :
    scanWinners heroRank oppRanks = oppRanks.enum.foldl scanStep (heroRank, [(-1 : Int)]) :=
  rfl

theorem scanFold_all_le (heroRank : List Nat) :
    ∀ (l : List (Nat × List Nat)) (ws : List Int),
      (∀ p ∈ l, compareRanks p.2 heroRank ≤ 0) →
      l.foldl scanStep (heroRank, ws) =
        (heroRank, ws ++ (l.filter fun p => compareRanks p.2 heroRank == 0).map
          fun p => (p.1 : Int)) := by
  intro l
  induction l with
  | nil =>
    intro ws h
    simp
  | cons p rest ih =>
    intro ws h
    have hp := h p (by simp)
    rw [List.foldl_cons]
    rcases lt_or_eq_of_le hp with hlt | heq
    · have hstep : scanStep (heroRank, ws) p = (heroRank, ws) := by
        unfold scanStep
        dsimp only
        rw [if_neg (by omega), if_neg (by omega)]
      rw [hstep, ih ws fun q hq => h q (by simp [hq])]
      have hfil : ((p :: rest).filter fun q => compareRanks q.2 heroRank == 0) =
          rest.filter fun q => compareRanks q.2 heroRank == 0 := by
        rw [List.filter_cons_of_neg]
        simp only [beq_iff_eq]
        omega
      rw [hfil]
    · have hstep : scanStep (heroRank, ws) p = (heroRank, ws ++ [(p.1 : Int)]) := by
        unfold scanStep
        dsimp only
        rw [if_neg (by omega), if_pos heq]
      rw [hstep, ih (ws ++ [(p.1 : Int)]) fun q hq => h q (by simp [hq])]
      have hfil : ((p :: rest).filter fun q => compareRanks q.2 heroRank == 0) =
          p :: rest.filter fun q => compareRanks q.2 heroRank == 0 := by
        rw [List.filter_cons_of_pos]
        simp only [beq_iff_eq]
        omega
      rw [hfil]
      simp

theorem scanFold_nonneg :
    ∀ (l : List (Nat × List Nat)) (best : List Nat) (ws : List Int),
      (∀ x ∈ ws, 0 ≤ x) → ∀ x ∈ (l.foldl scanStep (best, ws)).2, 0 ≤ x := by
  intro l
  induction l with
  | nil =>
    intro best ws h
    simpa using h
  | cons p rest ih =>
    intro best ws h
    rw [List.foldl_cons]
    unfold scanStep
    dsimp only
    by_cases h1 : compareRanks p.2 best > 0
    · rw [if_pos h1]
      exact ih p.2 [(p.1 : Int)] (by simp)
    · rw [if_neg h1]
      by_cases h2 : compareRanks p.2 best = 0
      · rw [if_pos h2]
        refine ih best (ws ++ [(p.1 : Int)]) ?_
        intro x hx
        rcases List.mem_append.1 hx with hx1 | hx2
        · exact h x hx1
        · simp at hx2
          omega
      · rw [if_neg h2]
        exact ih best ws h

theorem scanFold_beaten (heroRank : List Nat) :
    ∀ (l : List (Nat × List Nat)) (ws : List Int),
      (∃ p ∈ l, 0 < compareRanks p.2 heroRank) →
      ∀ x ∈ (l.foldl scanStep (heroRank, ws)).2, 0 ≤ x := by
  intro l
  induction l with
  | nil =>
    intro ws h
    rcases h with ⟨p, hp, _⟩
    simp at hp
  | cons p rest ih =>
    intro ws hex
    rw [List.foldl_cons]
    unfold scanStep
    dsimp only
    by_cases h1 : compareRanks p.2 heroRank > 0
    · rw [if_pos h1]
      exact scanFold_nonneg rest p.2 [(p.1 : Int)] (by simp)
    · rw [if_neg h1]
      have hq : ∃ q ∈ rest, 0 < compareRanks q.2 heroRank := by
        rcases hex with ⟨q, hqm, hqpos⟩
        rcases List.mem_cons.1 hqm with rfl | hq2
        · omega
        · exact ⟨q, hq2, hqpos⟩
      by_cases h2 : compareRanks p.2 heroRank = 0
      · rw [if_pos h2]
        exact ih (ws ++ [(p.1 : Int)]) hq
      · rw [if_neg h2]
        exact ih ws hq

theorem enum_filter_length {α : Type} (l : List α) (q : α → Bool) :
    ((l.enum.filter fun p => q p.2).map fun p => ((p.1 : Nat) : Int)).length = l.countP q := by
  rw [List.length_map, ← List.countP_eq_length_filter]
  have h1 : l.enum.countP (fun p => q p.2) = (l.enum.map Prod.snd).countP q := by
    rw [List.countP_map]
    rfl
  rw [h1, List.enum_map_snd]

theorem scanWinners_spec (heroRank : List Nat) (oppRanks : List (List Nat)) :
    ((oppRanks.all fun r => decide (compareRanks r heroRank ≤ 0)) = true →
      (scanWinners heroRank oppRanks).2 = (-1 : Int) ::
        ((oppRanks.enum.filter fun p => compareRanks p.2 heroRank == 0).map
          fun p => ((p.1 : Nat) : Int)))
    ∧ ((oppRanks.all fun r => decide (compareRanks r heroRank ≤ 0)) = false →
        (scanWinners heroRank oppRanks).2.contains (-1 : Int) = false) := by
  constructor
  · intro hall
    have harg : ∀ p ∈ oppRanks.enum, compareRanks p.2 heroRank ≤ 0 := by
      intro p hp
      rw [List.all_eq_true] at hall
      have hsnd : p.2 ∈ oppRanks := by
        have : p.2 ∈ oppRanks.enum.map Prod.snd := List.mem_map.2 ⟨p, hp, rfl⟩
        rwa [List.enum_map_snd] at this
      simpa using hall p.2 hsnd
    rw [scanWinners_eq_foldl, scanFold_all_le heroRank oppRanks.enum [(-1 : Int)] harg]
    rfl
  · intro hall
    rw [List.all_eq_false] at hall
    rcases hall with ⟨r, hr, hrge⟩
    have hrpos : 0 < compareRanks r heroRank := by
      simp at hrge
      omega
    have hr2 : r ∈ oppRanks.enum.map Prod.snd := by
      rw [List.enum_map_snd]
      exact hr
    rcases List.mem_map.1 hr2 with ⟨p, hpm, hps⟩
    have hppos : 0 < compareRanks p.2 heroRank := by
      rw [hps]
      exact hrpos
    have hnn := scanFold_beaten heroRank oppRanks.enum [(-1 : Int)] ⟨p, hpm, hppos⟩
    rw [scanWinners_eq_foldl]
    by_contra hc
    rw [Bool.not_eq_false] at hc
    have hmem2 : (-1 : Int) ∈ (oppRanks.enum.foldl scanStep (heroRank, [(-1 : Int)])).2 := by
      simpa using hc
    have := hnn (-1) hmem2
    omega

def specCredit (heroRank : List Nat) (oppRanks : List (List Nat)) : ℚ :=
  let allHands := heroRank :: oppRanks
  let winnerSet := allHands.filter fun r => allHands.all fun o => decide (compareRanks o r ≤ 0)
  if heroRank ∈ winnerSet then 1 / (winnerSet.length : ℚ) else 0

theorem credit_eq_specCredit (heroRank : List Nat) (oppRanks : List (List Nat)) :
    (if (scanWinners heroRank oppRanks).2.contains (-1 : Int) then
      1 / (((scanWinners heroRank oppRanks).2.length : ℚ)) else 0)
      = specCredit heroRank oppRanks := by
  have hspec : specCredit heroRank oppRanks =
      (if heroRank ∈ ((heroRank :: oppRanks).filter fun r =>
          (heroRank :: oppRanks).all fun o => decide (compareRanks o r ≤ 0)) then
        1 / ((((heroRank :: oppRanks).filter fun r =>
          (heroRank :: oppRanks).all fun o => decide (compareRanks o r ≤ 0)).length : ℚ))
      else 0) := rfl
  by_cases hall : (oppRanks.all fun r => decide (compareRanks r heroRank ≤ 0)) = true
  · have hwin := (scanWinners_spec heroRank oppRanks).1 hall
    have hallP : ∀ o ∈ heroRank :: oppRanks, compareRanks o heroRank ≤ 0 := by
      intro o ho
      rcases List.mem_cons.1 ho with rfl | ho2
      · rw [compareRanks_refl]
      · rw [List.all_eq_true] at hall
        simpa using hall o ho2
    have hPhero : ((heroRank :: oppRanks).all fun o =>
        decide (compareRanks o heroRank ≤ 0)) = true := by
      rw [List.all_eq_true]
      intro o ho
      simpa using hallP o ho
    have hPeq : ∀ r ∈ oppRanks,
        ((heroRank :: oppRanks).all fun o => decide (compareRanks o r ≤ 0)) =
          (compareRanks r heroRank == 0) := by
      intro r hr
      by_cases h0 : compareRanks r heroRank = 0
      · have hto : ∀ o ∈ heroRank :: oppRanks, compareRanks o r ≤ 0 := by
          intro o ho
          rw [compareRanks_zero_subst_right r heroRank h0 o]
          exact hallP o ho
        have h1 : ((heroRank :: oppRanks).all fun o => decide (compareRanks o r ≤ 0)) = true :=
          List.all_eq_true.2 fun o ho => by simpa using hto o ho
        have h2 : (compareRanks r heroRank == 0) = true := by simpa using h0
        rw [h1, h2]
      · have hrlt : compareRanks r heroRank < 0 := by
          have := hallP r (by simp [hr])
          omega
        have hneg := compareRanks_neg r heroRank
        have h1 : ((heroRank :: oppRanks).all fun o =>
            decide (compareRanks o r ≤ 0)) = false := by
          rw [List.all_eq_false]
          refine ⟨heroRank, by simp, ?_⟩
          simp only [decide_eq_true_eq]
          omega
        have h2 : (compareRanks r heroRank == 0) = false := by simpa using h0
        rw [h1, h2]
    have hcongr : (oppRanks.filter fun r =>
        (heroRank :: oppRanks).all fun o => decide (compareRanks o r ≤ 0)) =
          oppRanks.filter fun r => compareRanks r heroRank == 0 :=
      List.filter_congr hPeq
    have hflen : ((heroRank :: oppRanks).filter fun r =>
        (heroRank :: oppRanks).all fun o => decide (compareRanks o r ≤ 0)).length =
          1 + (oppRanks.countP fun r => compareRanks r heroRank == 0) := by
      rw [List.filter_cons, if_pos hPhero, List.length_cons, hcongr,
        ← List.countP_eq_length_filter]
      omega
    have hcnt2 : (oppRanks.enum.countP fun p => compareRanks p.2 heroRank == 0) =
        oppRanks.countP fun r => compareRanks r heroRank == 0 := by
      conv_rhs => rw [← List.enum_map_snd oppRanks]
      rw [List.countP_map]
      rfl
    have hlw : (scanWinners heroRank oppRanks).2.length =
        1 + (oppRanks.countP fun r => compareRanks r heroRank == 0) := by
      rw [hwin, List.length_cons, List.length_map, ← List.countP_eq_length_filter]
      omega
    have hmem : heroRank ∈ ((heroRank :: oppRanks).filter fun r =>
        (heroRank :: oppRanks).all fun o => decide (compareRanks o r ≤ 0)) :=
      List.mem_filter.2 ⟨by simp, hPhero⟩
    have hcont : (scanWinners heroRank oppRanks).2.contains (-1 : Int) = true := by
      rw [hwin]
      simp
    rw [hspec, if_pos hmem, hcont, if_pos rfl, hlw, hflen]
  · have hallf : (oppRanks.all fun r => decide (compareRanks r heroRank ≤ 0)) = false := by
      revert hall
      cases oppRanks.all fun r => decide (compareRanks r heroRank ≤ 0) <;> simp
    have hcont := (scanWinners_spec heroRank oppRanks).2 hallf
    rcases List.all_eq_false.1 hallf with ⟨r, hr, hrn⟩
    have hrpos : 0 < compareRanks r heroRank := by
      simp only [decide_eq_true_eq] at hrn
      omega
    have hnmem : heroRank ∉ ((heroRank :: oppRanks).filter fun r =>
        (heroRank :: oppRanks).all fun o => decide (compareRanks o r ≤ 0)) := by
      intro hmem
      have hP := (List.mem_filter.1 hmem).2
      rw [List.all_eq_true] at hP
      have := hP r (by simp [hr])
      simp only [decide_eq_true_eq] at this
      omega
    rw [hspec, if_neg hnmem, hcont]
    simp

/-! ## Trial structure -/

theorem drawRandom_spec (g : Nat → Nat) (t : Nat) (deck : List Card) (hne : deck ≠ []) :
    ∃ c deck', drawRandom g t deck = (c, deck', t + 1) ∧ (c :: deck').Perm deck := by
  have hlen : 0 < deck.length := List.length_pos.2 hne
  have hidx : g t % deck.length < deck.length := Nat.mod_lt _ hlen
  refine ⟨deck.getD (g t % deck.length) defaultCard,
    deck.eraseIdx (g t % deck.length), rfl, ?_⟩
  set i := g t % deck.length with hi
  have hget : deck.getD i defaultCard = deck.get ⟨i, hidx⟩ := by
    rw [List.getD_eq_getElem?_getD, List.getElem?_eq_getElem hidx]
    rfl
  rw [hget, List.eraseIdx_eq_take_drop_succ]
  have hsplit : deck = List.take i deck ++ deck.get ⟨i, hidx⟩ :: List.drop (i + 1) deck := by
    conv_lhs => rw [← List.take_append_drop i deck]
    rw [List.drop_eq_getElem_cons hidx]
    rfl
  refine List.Perm.trans List.perm_middle.symm ?_
  rw [← hsplit]

theorem drawOpponents_spec (g : Nat → Nat) :
    ∀ (u t : Nat) (deck : List Card), 2 * u ≤ deck.length →
      ∃ hands deck', drawOpponents g u t deck = (hands, deck', t + 2 * u)
        ∧ hands.length = u ∧ (∀ h ∈ hands, h.length = 2)
        ∧ (hands.flatten ++ deck').Perm deck := by
  intro u
  induction u with
  | zero =>
    intro t deck h
    exact ⟨[], deck, rfl, rfl, by simp, by simp⟩
  | succ j ih =>
    intro t deck hdl
    have hne : deck ≠ [] := by
      intro h
      rw [h] at hdl
      simp at hdl
    obtain ⟨c1, deck1, hdr1, hp1⟩ := drawRandom_spec g t deck hne
    have hlen1 : deck1.length + 1 = deck.length := by
      have := hp1.length_eq
      simpa using this
    have hne1 : deck1 ≠ [] := by
      intro h
      rw [h] at hlen1
      simp at hlen1
      omega
    obtain ⟨c2, deck2, hdr2, hp2⟩ := drawRandom_spec g (t + 1) deck1 hne1
    have hlen2 : deck2.length + 1 = deck1.length := by
      have := hp2.length_eq
      simpa using this
    obtain ⟨rest, deck3, hdo, hrl, hrh, hrp⟩ := ih (t + 1 + 1) deck2 (by omega)
    refine ⟨[c1, c2] :: rest, deck3, ?_, by simp [hrl], ?_, ?_⟩
    · show drawOpponents g (j + 1) t deck = _
      have ht : t + 1 + 1 + 2 * j = t + 2 * (j + 1) := by omega
      rw [drawOpponents, hdr1]
      dsimp only
      rw [hdr2]
      dsimp only
      rw [hdo, ht]
    · intro h hh
      rcases List.mem_cons.1 hh with rfl | hh2
      · rfl
      · exact hrh h hh2
    · rw [List.flatten_cons]
      have h3 : (rest.flatten ++ deck3).Perm deck2 := hrp
      have h4 : (c2 :: (rest.flatten ++ deck3)).Perm deck1 := (h3.cons c2).trans hp2
      have h5 : (c1 :: c2 :: (rest.flatten ++ deck3)).Perm deck := (h4.cons c1).trans hp1
      simpa using h5

theorem fillBoardLoop_spec (g : Nat → Nat) :
    ∀ (fuel t : Nat) (deck board : List Card),
      board.length ≤ 5 → 5 ≤ board.length + fuel → 5 - board.length ≤ deck.length →
      ∃ ext deck', fillBoardLoop g fuel t deck board =
          (board ++ ext, deck', t + (5 - board.length))
        ∧ (board ++ ext).length = 5 ∧ (ext ++ deck').Perm deck := by
  intro fuel
  induction fuel with
  | zero =>
    intro t deck board h1 h2 h3
    have h5 : board.length = 5 := by omega
    refine ⟨[], deck, ?_, by simp [h5], by simp⟩
    show (board, deck, t) = _
    simp [h5]
  | succ f ih =>
    intro t deck board h1 h2 h3
    by_cases hb : board.length < 5
    · have hne : deck ≠ [] := by
        intro h
        rw [h] at h3
        simp at h3
        omega
      obtain ⟨c, deck1, hdr, hp⟩ := drawRandom_spec g t deck hne
      have hlen1 : deck1.length + 1 = deck.length := by
        have := hp.length_eq
        simpa using this
      obtain ⟨ext, deck', hfb, hbl, hep⟩ := ih (t + 1) deck1 (board ++ [c])
        (by simp; omega) (by simp; omega) (by simp; omega)
      refine ⟨c :: ext, deck', ?_, by simpa using hbl, ?_⟩
      · show fillBoardLoop g (f + 1) t deck board = _
        have hassoc : board ++ [c] ++ ext = board ++ c :: ext := by simp
        have ht2 : t + 1 + (5 - (board ++ [c]).length) = t + (5 - board.length) := by
          simp
          omega
        rw [fillBoardLoop, if_pos hb, hdr]
        dsimp only
        rw [hfb, hassoc, ht2]
      · have h6 : (ext ++ deck').Perm deck1 := hep
        exact (h6.cons c).trans hp
    · have h5 : board.length = 5 := by omega
      refine ⟨[], deck, ?_, by simp [h5], by simp⟩
      show fillBoardLoop g (f + 1) t deck board = _
      rw [fillBoardLoop, if_neg hb]
      simp [h5]

theorem fillBoard_spec (g : Nat → Nat) (t : Nat) (deck board : List Card)
    (h1 : board.length ≤ 5) (h3 : 5 - board.length ≤ deck.length) :
    ∃ ext deck', fillBoard g t deck board = (board ++ ext, deck', t + (5 - board.length))
      ∧ (board ++ ext).length = 5 ∧ (ext ++ deck').Perm deck :=
  fillBoardLoop_spec g 5 t deck board h1 (by omega) h3

theorem flatten_length_two (hands : List (List Card)) (u : Nat)
    (hl : hands.length = u) (hh : ∀ h ∈ hands, h.length = 2) :
    hands.flatten.length = 2 * u := by
  rw [List.length_flatten]
  have hrep : hands.map List.length = List.replicate u 2 := by
    rw [List.eq_replicate]
    refine ⟨by simp [hl], ?_⟩
    intro b hb
    rw [List.mem_map] at hb
    obtain ⟨h, hm, rfl⟩ := hb
    exact hh h hm
  rw [hrep, List.sum_replicate]
  simp
  omega

theorem trialSetup_spec (hero board : List Card) (known : List (List Card)) (u : Nat)
    (g : Nat → Nat) (t : Nat) (hb : board.length ≤ 5)
    (hdl : 2 * u + (5 - board.length) ≤
      (createDeck (hero ++ board ++ known.flatten)).length) :
    ∃ opps fullBoard ext deck',
      trialSetup hero board known u g t =
        (opps, fullBoard, t + 2 * u + (5 - board.length))
      ∧ opps.length = u ∧ (∀ h ∈ opps, h.length = 2)
      ∧ fullBoard = board ++ ext ∧ fullBoard.length = 5
      ∧ (opps.flatten ++ ext ++ deck').Perm
          (createDeck (hero ++ board ++ known.flatten)) := by
  obtain ⟨opps, deck1, hdo, hol, hoh, hop⟩ :=
    drawOpponents_spec g u t (createDeck (hero ++ board ++ known.flatten)) (by omega)
  have hflat : opps.flatten.length = 2 * u := flatten_length_two opps u hol hoh
  have hd1 : 5 - board.length ≤ deck1.length := by
    have := hop.length_eq
    rw [List.length_append, hflat] at this
    omega
  obtain ⟨ext, deck', hfb, hbl, hep⟩ := fillBoard_spec g (t + 2 * u) deck1 board hb hd1
  refine ⟨opps, board ++ ext, ext, deck', ?_, hol, hoh, rfl, hbl, ?_⟩
  · show trialSetup hero board known u g t = _
    rw [trialSetup]
    dsimp only
    rw [hdo]
    dsimp only
    rw [hfb]
  · have h1 : (opps.flatten ++ (ext ++ deck')).Perm (opps.flatten ++ deck1) :=
      List.Perm.append_left opps.flatten hep
    have h2 := h1.trans hop
    simpa [List.append_assoc] using h2

theorem evaluate7_some (cards : List Card) (hlen : cards.length = 7) :
    ∃ r, evaluate7 cards = some r
      ∧ (∃ hand, hand.Sublist cards ∧ hand.length = 5 ∧ r = evaluate5 hand)
      ∧ (∀ hand, hand.Sublist cards → hand.length = 5 →
          0 ≤ compareRanks r (evaluate5 hand)) := by
  rw [evaluate7_eq_bestHandRank cards hlen]
  exact bestHandRank_spec cards (by omega)

def specTrialCredit (hero board : List Card) (known : List (List Card)) (u : Nat)
    (g : Nat → Nat) (t : Nat) : ℚ :=
  match evaluate7 (hero ++ (trialSetup hero board known u g t).2.1),
      (known ++ (trialSetup hero board known u g t).1).mapM
        (fun hand => evaluate7 (hand ++ (trialSetup hero board known u g t).2.1)) with
  | some heroRank, some oppRanks => specCredit heroRank oppRanks
  | _, _ => 0

theorem runTrial_spec (hero board : List Card) (known : List (List Card)) (u : Nat)
    (g : Nat → Nat) (t : Nat) (hh : hero.length = 2) (hb : board.length ≤ 5)
    (hko : ∀ h ∈ known, h.length = 2)
    (hdl : 2 * u + (5 - board.length) ≤
      (createDeck (hero ++ board ++ known.flatten)).length) :
    runTrial hero board known u g t =
      some (specTrialCredit hero board known u g t, t + 2 * u + (5 - board.length)) := by
  obtain ⟨opps, fullBoard, ext, deck', hts, hol, hoh, hfbe, hbl, hperm⟩ :=
    trialSetup_spec hero board known u g t hb hdl
  have hh7 : (hero ++ fullBoard).length = 7 := by
    rw [List.length_append, hh, hbl]
  obtain ⟨heroRank, hhr, _, _⟩ := evaluate7_some (hero ++ fullBoard) hh7
  have hoppsome : ∀ hand ∈ known ++ opps, (evaluate7 (hand ++ fullBoard)).isSome := by
    intro hand hmem
    have hself : hand.length = 2 := by
      rcases List.mem_append.1 hmem with hm | hm
      · exact hko hand hm
      · exact hoh hand hm
    obtain ⟨r, hr, _, _⟩ := evaluate7_some (hand ++ fullBoard)
      (by rw [List.length_append, hself, hbl])
    rw [hr]
    rfl
  obtain ⟨oppRanks, hmapm, _⟩ :=
    optionMapM_forall2 (fun hand => evaluate7 (hand ++ fullBoard)) (known ++ opps) hoppsome
  have hstc : specTrialCredit hero board known u g t = specCredit heroRank oppRanks := by
    unfold specTrialCredit
    rw [hts]
    dsimp only
    rw [hhr, hmapm]
  rw [runTrial]
  dsimp only
  rw [hts]
  dsimp only
  rw [hhr, hmapm]
  dsimp only
  rw [hstc, ← credit_eq_specCredit heroRank oppRanks]

theorem simLoop_spec (hero board : List Card) (known : List (List Card)) (u : Nat)
    (g : Nat → Nat) (d : Nat)
    (hrt : ∀ t, runTrial hero board known u g t =
      some (specTrialCredit hero board known u g t, t + d)) :
    ∀ (n t : Nat) (acc : ℚ), simLoop hero board known u g n t acc =
      some (acc + ((List.range n).map fun i =>
        specTrialCredit hero board known u g (t + i * d)).sum, t + n * d) := by
  intro n
  induction n with
  | zero =>
    intro t acc
    simp [simLoop]
  | succ m ih =>
    intro t acc
    rw [simLoop, hrt t]
    dsimp only
    rw [ih (t + d) (acc + specTrialCredit hero board known u g t)]
    have hsum : ((List.range (m + 1)).map fun i =>
        specTrialCredit hero board known u g (t + i * d)).sum =
        specTrialCredit hero board known u g t +
          ((List.range m).map fun i =>
            specTrialCredit hero board known u g (t + d + i * d)).sum := by
      rw [List.range_succ_eq_map, List.map_cons, List.map_map, List.sum_cons]
      have h0 : t + 0 * d = t := by omega
      rw [h0]
      have hmaps : (List.range m).map
          ((fun i => specTrialCredit hero board known u g (t + i * d)) ∘ Nat.succ) =
          (List.range m).map fun i => specTrialCredit hero board known u g (t + d + i * d) := by
        refine List.map_congr_left ?_
        intro i _
        show specTrialCredit hero board known u g (t + Nat.succ i * d) = _
        refine congrArg (specTrialCredit hero board known u g) ?_
        have : Nat.succ i * d = i * d + d := Nat.succ_mul i d
        omega
      rw [hmaps]
    rw [hsum]
    have ht : t + d + m * d = t + (m + 1) * d := by
      have : (m + 1) * d = m * d + d := Nat.succ_mul m d
      omega
    rw [ht, add_assoc]

theorem calculateWinRate_spec (p : WinRateParams) (g : Nat → Nat) (u d : Nat)
    (hu : u = (max ((p.numPlayers : Int) - 1 - (p.knownOpponents.length : Int)) 0).toNat)
    (hd : d = 2 * u + (5 - p.board.length))
    (hh : p.hero.length = 2) (hb : p.board.length ≤ 5)
    (hko : ∀ h ∈ p.knownOpponents, h.length = 2)
    (hdl : 2 * u + (5 - p.board.length) ≤
      (createDeck (p.hero ++ p.board ++ p.knownOpponents.flatten)).length) :
    calculateWinRate p g = some
      ⟨((List.range p.iterations).map fun i =>
          specTrialCredit p.hero p.board p.knownOpponents u g (i * d)).sum /
        (p.iterations : ℚ), p.iterations⟩ := by
  have hrt : ∀ t, runTrial p.hero p.board p.knownOpponents u g t =
      some (specTrialCredit p.hero p.board p.knownOpponents u g t, t + d) := by
    intro t
    rw [runTrial_spec p.hero p.board p.knownOpponents u g t hh hb hko hdl]
    rw [hd]
    have : t + 2 * u + (5 - p.board.length) = t + (2 * u + (5 - p.board.length)) := by omega
    rw [this]
  have hsl := simLoop_spec p.hero p.board p.knownOpponents u g d hrt p.iterations 0 0
  rw [calculateWinRate]
  rw [← hu, hsl]
  dsimp only
  have hz : ∀ i : Nat, (0 : Nat) + i * d = i * d := fun i => by omega
  have hmeq : ((List.range p.iterations).map fun i =>
      specTrialCredit p.hero p.board p.knownOpponents u g (0 + i * d)) =
      (List.range p.iterations).map fun i =>
        specTrialCredit p.hero p.board p.knownOpponents u g (i * d) :=
    List.map_congr_left fun i _ =>
      congrArg (specTrialCredit p.hero p.board p.knownOpponents u g) (hz i)
  rw [hmeq, zero_add]

/-- Claim C2: for every valid input (hero of 2 cards, board of at most 5 cards,
numPlayers in 2..9, known opponent hands of 2 cards each, no card repeated anywhere,
iterations at least 1) and every random stream g, calculateWinRate runs exactly
`iterations` trials: in each trial exactly max(numPlayers - 1 - |knownOpponents|, 0)
unknown opponent hands of 2 cards each are drawn without replacement from the deck of
unseen cards, the board is completed to exactly 5 cards, and the hero per-trial credit is
1/|winner set| when the hero 7-card HandRank is among the maximal hands under the
comparator and 0 otherwise; the returned equity equals the sum of the per-trial credits
divided by `iterations`, and the returned iteration count equals `iterations`. -/
theorem claim_C2_monte_carlo_structure (p : WinRateParams) (g : Nat → Nat) (u d : Nat)
    (hu : u = (max ((p.numPlayers : Int) - 1 - (p.knownOpponents.length : Int)) 0).toNat)
    (hd : d = 2 * u + (5 - p.board.length))
    (hh : p.hero.length = 2) (hb : p.board.length ≤ 5)
    (hnp : 2 ≤ p.numPlayers ∧ p.numPlayers ≤ 9)
    (hko : ∀ h ∈ p.knownOpponents, h.length = 2)
    (hkn : p.knownOpponents.length ≤ p.numPlayers - 1)
    (hnd : (p.hero ++ p.board ++ p.knownOpponents.flatten).Nodup)
    (hit : 1 ≤ p.iterations) :
    (∀ t, ∃ opps ext deck',
      trialSetup p.hero p.board p.knownOpponents u g t = (opps, p.board ++ ext, t + d)
      ∧ opps.length = u ∧ (∀ h ∈ opps, h.length = 2)
      ∧ (p.board ++ ext).length = 5
      ∧ (opps.flatten ++ ext ++ deck').Perm
          (createDeck (p.hero ++ p.board ++ p.knownOpponents.flatten)))
    ∧ calculateWinRate p g = some
      ⟨((List.range p.iterations).map fun i =>
          specTrialCredit p.hero p.board p.knownOpponents u g (i * d)).sum /
        (p.iterations : ℚ), p.iterations⟩ := by
  have hkn8 : p.knownOpponents.length ≤ 8 := by omega
  have hu8 : u ≤ 8 := by
    rw [hu]
    rcases le_total ((p.numPlayers : Int) - 1 - (p.knownOpponents.length : Int)) 0 with h | h
    · rw [max_eq_right h]
      omega
    · rw [max_eq_left h]
      omega
  have hexlen : (p.hero ++ p.board ++ p.knownOpponents.flatten).length =
      2 + p.board.length + 2 * p.knownOpponents.length := by
    rw [List.length_append, List.length_append, hh,
      flatten_length_two p.knownOpponents p.knownOpponents.length rfl hko]
  have hdeck : (createDeck (p.hero ++ p.board ++ p.knownOpponents.flatten)).length =
      52 - (2 + p.board.length + 2 * p.knownOpponents.length) := by
    rw [createDeck_length _ hnd, hexlen]
  have hdl : 2 * u + (5 - p.board.length) ≤
      (createDeck (p.hero ++ p.board ++ p.knownOpponents.flatten)).length := by
    rw [hdeck]
    omega
  constructor
  · intro t
    obtain ⟨opps, fullBoard, ext, deck', hts, hol, hoh, hfbe, hbl, hperm⟩ :=
      trialSetup_spec p.hero p.board p.knownOpponents u g t hb hdl
    refine ⟨opps, ext, deck', ?_, hol, hoh, ?_, hperm⟩
    · rw [← hfbe, hts, hd]
      have : t + 2 * u + (5 - p.board.length) = t + (2 * u + (5 - p.board.length)) := by
        omega
      rw [this]
    · rw [← hfbe]
      exact hbl
  · exact calculateWinRate_spec p g u d hu hd hh hb hko hdl

def exampleC2p : WinRateParams :=
  ⟨[⟨Rank.rA, Suit.s⟩, ⟨Rank.rK, Suit.s⟩], [], 2, [], 1⟩

theorem claim_C2_witness :
    (exampleC2p.hero.length = 2 ∧ exampleC2p.board.length ≤ 5
      ∧ (2 ≤ exampleC2p.numPlayers ∧ exampleC2p.numPlayers ≤ 9)
      ∧ 1 ≤ exampleC2p.iterations)
    ∧ calculateWinRate exampleC2p (fun _ => 0) = some
      ⟨((List.range exampleC2p.iterations).map fun i =>
          specTrialCredit exampleC2p.hero exampleC2p.board exampleC2p.knownOpponents 1
            (fun _ => 0) (i * 7)).sum / (exampleC2p.iterations : ℚ),
        exampleC2p.iterations⟩ :=
  ⟨⟨by decide, by decide, ⟨by decide, by decide⟩, by decide⟩,
    (claim_C2_monte_carlo_structure exampleC2p (fun _ => 0) 1 7 (by decide) (by decide)
      (by decide) (by decide) (by decide) (by decide) (by decide) (by decide) (by decide)).2⟩

def heroC7 : List Card := [⟨Rank.r2, Suit.c⟩, ⟨Rank.r2, Suit.d⟩]

def boardC7 : List Card :=
  [⟨Rank.r2, Suit.h⟩, ⟨Rank.r2, Suit.s⟩, ⟨Rank.rK, Suit.s⟩, ⟨Rank.rQ, Suit.d⟩,
   ⟨Rank.rJ, Suit.d⟩]

def exampleC1p : WinRateParams :=
  ⟨[⟨Rank.r2, Suit.s⟩, ⟨Rank.r2, Suit.s⟩], [], 2, [], 1⟩

/-- Claim C1 counterexample: on an input that violates the boundary preconditions (the
hero hand contains the same Card value twice), calculateWinRate does not reject the
input: it runs the trial and returns a result. -/
theorem claim_C1_counterexample :
    (calculateWinRate exampleC1p (fun _ => 0)).isSome = true := by
  rw [calculateWinRate_spec exampleC1p (fun _ => 0) 1 7 (by decide) (by decide) (by decide)
    (by decide) (by decide) (by decide)]
  rfl

/-- Claim C1 (amended): the engine itself performs no input validation. For the
duplicate-card input (hero holding the same card twice) with any random stream and any
iteration count at least 1, calculateWinRate runs all the trials and returns a result
whose iteration count equals the requested one, instead of rejecting the input.
Input validation exists only in the UI layer, not in calculateWinRate. -/
theorem claim_C1_no_engine_validation (g : Nat → Nat) (n : Nat) (hn : 1 ≤ n) :
    ∃ res, calculateWinRate ⟨exampleC1p.hero, [], 2, [], n⟩ g = some res
      ∧ res.iterations = n := by
  have h1 : (1 : Nat) =
      (max (((2 : Nat) : Int) - 1 - ((([] : List (List Card)).length : Nat) : Int)) 0).toNat := by
    decide
  have h2 : (7 : Nat) = 2 * 1 + (5 - ([] : List Card).length) := by decide
  have h3 : exampleC1p.hero.length = 2 := by decide
  have h4 : ([] : List Card).length ≤ 5 := by decide
  have h5 : ∀ h ∈ ([] : List (List Card)), h.length = 2 := by decide
  have h6 : 2 * 1 + (5 - ([] : List Card).length) ≤
      (createDeck (exampleC1p.hero ++ ([] : List Card) ++
        ([] : List (List Card)).flatten)).length := by decide
  exact ⟨_, calculateWinRate_spec ⟨exampleC1p.hero, [], 2, [], n⟩ g 1 7 h1 h2 h3 h4 h5 h6, rfl⟩

theorem claim_C1_witness :
    (1 ≤ 2) ∧ ∃ res, calculateWinRate ⟨exampleC1p.hero, [], 2, [], 2⟩ (fun _ => 0) = some res
      ∧ res.iterations = 2 :=
  ⟨by decide, claim_C1_no_engine_validation (fun _ => 0) 2 (by decide)⟩

/-! ## Claim C7: locked four deuces -/

theorem specCredit_all_lt (heroRank : List Nat) (oppRanks : List (List Nat))
    (hlt : ∀ r ∈ oppRanks, compareRanks r heroRank < 0) :
    specCredit heroRank oppRanks = 1 := by
  have hspec : specCredit heroRank oppRanks =
      (if heroRank ∈ ((heroRank :: oppRanks).filter fun r =>
          (heroRank :: oppRanks).all fun o => decide (compareRanks o r ≤ 0)) then
        1 / ((((heroRank :: oppRanks).filter fun r =>
          (heroRank :: oppRanks).all fun o => decide (compareRanks o r ≤ 0)).length : ℚ))
      else 0) := rfl
  have hPhero : ((heroRank :: oppRanks).all fun o =>
      decide (compareRanks o heroRank ≤ 0)) = true := by
    rw [List.all_eq_true]
    intro o ho
    rcases List.mem_cons.1 ho with rfl | ho2
    · simp [compareRanks_refl]
    · have := hlt o ho2
      simp only [decide_eq_true_eq]
      omega
  have hPopp : ∀ r ∈ oppRanks,
      ((heroRank :: oppRanks).all fun o => decide (compareRanks o r ≤ 0)) = false := by
    intro r hr
    rw [List.all_eq_false]
    refine ⟨heroRank, by simp, ?_⟩
    have h1 := hlt r hr
    have h2 := compareRanks_neg r heroRank
    simp only [decide_eq_true_eq]
    omega
  have hfil : (oppRanks.filter fun r =>
      (heroRank :: oppRanks).all fun o => decide (compareRanks o r ≤ 0)) = [] := by
    rw [List.filter_eq_nil_iff]
    intro a ha
    rw [hPopp a ha]
    simp
  have hws : ((heroRank :: oppRanks).filter fun r =>
      (heroRank :: oppRanks).all fun o => decide (compareRanks o r ≤ 0)) = [heroRank] := by
    rw [List.filter_cons, if_pos hPhero, hfil]
  rw [hspec, hws]
  simp

theorem boardC7_suit_count (s : Suit) :
    (boardC7.countP fun c => c.suit == s) ≤ 2 := by
  cases s <;> decide

theorem rank2_mem (c : Card) (h : RANK_VALUE c.rank = 2) : c ∈ heroC7 ++ boardC7 := by
  obtain ⟨r, s⟩ := c
  have hr : r = Rank.r2 := by
    cases r <;> first | rfl | (exfalso; simp [RANK_VALUE] at h)
  subst hr
  cases s <;> decide

theorem oppSeven_rank_count (hand : List Card) (hlen2 : hand.length = 2)
    (hnotin : ∀ c ∈ hand, c ∉ heroC7 ++ boardC7) (v : Nat) :
    ((hand ++ boardC7).map fun c => RANK_VALUE c.rank).count v ≤ 3 := by
  rw [List.map_append, List.count_append]
  by_cases hv : v = 2
  · subst hv
    have hh0 : ((hand.map fun c => RANK_VALUE c.rank).count 2) = 0 := by
      rw [List.count_eq_zero]
      intro hmem
      rw [List.mem_map] at hmem
      obtain ⟨c, hc, hrv⟩ := hmem
      exact hnotin c hc (rank2_mem c hrv)
    have hb2 : ((boardC7.map fun c => RANK_VALUE c.rank).count 2) = 2 := by decide
    omega
  · have h1 : ((hand.map fun c => RANK_VALUE c.rank).count v) ≤ 2 := by
      have := List.count_le_length v (hand.map fun c => RANK_VALUE c.rank)
      rw [List.length_map, hlen2] at this
      exact this
    have h2 : ((boardC7.map fun c => RANK_VALUE c.rank).count v) ≤ 1 := by
      show List.count v [2, 2, 13, 12, 11] ≤ 1
      simp only [List.count_cons, List.count_nil, beq_iff_eq]
      split_ifs <;> omega
    omega

theorem oppSeven_suit_count (hand : List Card) (hlen2 : hand.length = 2) (s : Suit) :
    ((hand ++ boardC7).countP fun c => c.suit == s) ≤ 4 := by
  rw [List.countP_append]
  have h1 : (hand.countP fun c => c.suit == s) ≤ 2 := by
    have h0 : (hand.countP fun c => c.suit == s) ≤ hand.length := List.countP_le_length _
    omega
  have h2 := boardC7_suit_count s
  omega

set_option maxRecDepth 4000 in
theorem heroC7_eval : evaluate7 (heroC7 ++ boardC7) = some [7, 2, 13] := by decide

theorem opp_rank_lt_heroC7 (hand : List Card) (hlen2 : hand.length = 2)
    (hnotin : ∀ c ∈ hand, c ∉ heroC7 ++ boardC7) (r : List Nat)
    (hr : evaluate7 (hand ++ boardC7) = some r) :
    compareRanks r [7, 2, 13] < 0 := by
  have h7 : (hand ++ boardC7).length = 7 := by
    rw [List.length_append, hlen2]
    rfl
  obtain ⟨r', hr', ⟨sub, hsub, hsl, hre⟩, _⟩ := evaluate7_some (hand ++ boardC7) h7
  rw [hr] at hr'
  injection hr' with hr''
  subst hr''
  have hc3 : ∀ v, (sub.map fun c => RANK_VALUE c.rank).count v ≤ 3 := by
    intro v
    have hmap : (sub.map fun c => RANK_VALUE c.rank).Sublist
        ((hand ++ boardC7).map fun c => RANK_VALUE c.rank) := hsub.map _
    have h1 := hmap.count_le v
    have h2 := oppSeven_rank_count hand hlen2 hnotin v
    omega
  have hflu : isFlush sub = false := by
    rcases hsub5 : sub with _ | ⟨c0, rest⟩
    · rw [hsub5] at hsl
      simp at hsl
    · by_contra hcon
      rw [Bool.not_eq_false] at hcon
      rw [show isFlush (c0 :: rest) =
        ((c0 :: rest).all fun card => card.suit == c0.suit) from rfl] at hcon
      rw [List.all_eq_true] at hcon
      have hcnt : ((c0 :: rest).countP fun c => c.suit == c0.suit) = 5 := by
        rw [List.countP_eq_length.2 hcon, ← hsub5, hsl]
      have hle := List.Sublist.countP_le (fun c => c.suit == c0.suit)
        (hsub5 ▸ hsub)
      have h4 := oppSeven_suit_count hand hlen2 c0.suit
      omega
  have hcore := eval_core (sub.map fun c => RANK_VALUE c.rank) (isFlush sub)
    (by rw [List.length_map, hsl])
    (fun v => by have := hc3 v; omega)
    (fun hf => absurd hf (by rw [hflu]; exact Bool.false_ne_true))
    (by
      intro x hx
      rw [List.mem_map] at hx
      obtain ⟨c, _, rfl⟩ := hx
      exact RANK_VALUE_bounds c.rank)
  have hg4f : hasGroupOf (sub.map fun c => RANK_VALUE c.rank) 4 = false := by
    apply hasGroupOf_false
    intro x hx
    have := hc3 x
    omega
  have hcat : specCategoryCore (isFlush sub) (sub.map fun c => RANK_VALUE c.rank) ≤ 6 := by
    rw [hflu]
    unfold specCategoryCore
    rw [hg4f]
    simp only [Bool.false_and, Bool.false_eq_true, if_false]
    split_ifs <;> omega
  have hhead : (evaluate5 sub).headD 0 ≤ 6 := by
    rw [evaluate5, hcore.1]
    exact hcat
  have hlen45 : (evaluate5 sub).length = catLen ((evaluate5 sub).headD 0) := by
    rw [evaluate5]
    exact hcore.2.2.2
  rcases hev : evaluate5 sub with _ | ⟨r0, rtail⟩
  · exfalso
    rw [hev] at hlen45
    simp [catLen] at hlen45
  · rw [hre, hev]
    rw [hev] at hhead
    simp only [List.headD_cons] at hhead
    rw [compareRanks_cons_cons]
    have hr0 : (r0 : Int) ≤ 6 := by exact_mod_cast hhead
    rw [if_pos (by omega)]
    omega

/-- Claim C7: for hero = {2c,2d} and board = {2h,2s,Ks,Qd,Jd} (four deuces locked on
the board), calculateWinRate returns equity exactly 1 with the requested iteration
count, for every random stream, every number of players in 2..9, every iteration count
at least 1, and every valid set of known opponent hands: no opponent 7-card hand can
beat or tie the hero four of a kind. -/
theorem claim_C7_four_deuces_equity_one (g : Nat → Nat) (numPlayers iterations : Nat)
    (known : List (List Card))
    (hnp : 2 ≤ numPlayers ∧ numPlayers ≤ 9) (hit : 1 ≤ iterations)
    (hko : ∀ h ∈ known, h.length = 2) (hkn : known.length ≤ numPlayers - 1)
    (hnd : (heroC7 ++ boardC7 ++ known.flatten).Nodup) :
    calculateWinRate ⟨heroC7, boardC7, numPlayers, known, iterations⟩ g =
      some ⟨1, iterations⟩ := by
  set u := (max ((numPlayers : Int) - 1 - (known.length : Int)) 0).toNat with hu
  have hkn8 : known.length ≤ 8 := by omega
  have hu8 : u ≤ 8 := by
    rw [hu]
    rcases le_total ((numPlayers : Int) - 1 - (known.length : Int)) 0 with h | h
    · rw [max_eq_right h]
      omega
    · rw [max_eq_left h]
      omega
  have hb5 : boardC7.length = 5 := rfl
  have hdl : 2 * u + (5 - boardC7.length) ≤
      (createDeck (heroC7 ++ boardC7 ++ known.flatten)).length := by
    rw [createDeck_length _ hnd]
    have hex : (heroC7 ++ boardC7 ++ known.flatten).length = 7 + 2 * known.length := by
      rw [List.length_append, List.length_append,
        flatten_length_two known known.length rfl hko]
      rfl
    rw [hex, hb5]
    omega
  have hcred : ∀ t, specTrialCredit heroC7 boardC7 known u g t = 1 := by
    intro t
    obtain ⟨opps, fullBoard, ext, deck', hts, hol, hoh, hfbe, hbl, hperm⟩ :=
      trialSetup_spec heroC7 boardC7 known u g t (by omega) hdl
    have hext : ext = [] := by
      rw [hfbe, List.length_append, hb5] at hbl
      have : ext.length = 0 := by omega
      exact List.length_eq_zero.1 this
    have hfb : fullBoard = boardC7 := by
      rw [hfbe, hext, List.append_nil]
    have hhr : evaluate7 (heroC7 ++ fullBoard) = some [7, 2, 13] := by
      rw [hfb]
      exact heroC7_eval
    have hhands : ∀ hand ∈ known ++ opps,
        hand.length = 2 ∧ ∀ c ∈ hand, c ∉ heroC7 ++ boardC7 := by
      intro hand hmem
      rcases List.mem_append.1 hmem with hm | hm
      · refine ⟨hko hand hm, ?_⟩
        intro c hc hcmem
        have hcf : c ∈ known.flatten := List.mem_flatten.2 ⟨hand, hm, hc⟩
        exact (List.nodup_append.1 hnd).2.2 hcmem hcf
      · refine ⟨hoh hand hm, ?_⟩
        intro c hc hcmem
        have hcf : c ∈ opps.flatten := List.mem_flatten.2 ⟨hand, hm, hc⟩
        have hcd : c ∈ createDeck (heroC7 ++ boardC7 ++ known.flatten) :=
          hperm.subset (by simp [hcf])
        exact (mem_createDeck _ c).1 hcd (List.mem_append.2 (Or.inl hcmem))
    have hoppsome : ∀ hand ∈ known ++ opps, (evaluate7 (hand ++ fullBoard)).isSome := by
      intro hand hmem
      obtain ⟨hl2, _⟩ := hhands hand hmem
      obtain ⟨r, hr, _, _⟩ := evaluate7_some (hand ++ fullBoard)
        (by rw [List.length_append, hl2, hbl])
      rw [hr]
      rfl
    obtain ⟨oppRanks, hmapm, hfa⟩ :=
      optionMapM_forall2 (fun hand => evaluate7 (hand ++ fullBoard)) (known ++ opps) hoppsome
    have hlt : ∀ r ∈ oppRanks, compareRanks r [7, 2, 13] < 0 := by
      intro r hrm
      obtain ⟨hand, hhm, heq⟩ := forall2_mem_right hfa r hrm
      obtain ⟨hl2, hni⟩ := hhands hand hhm
      refine opp_rank_lt_heroC7 hand hl2 hni r ?_
      rw [← hfb]
      exact heq
    unfold specTrialCredit
    rw [hts]
    dsimp only
    rw [hhr, hmapm]
    exact specCredit_all_lt _ _ hlt
  have hd : (2 * u : Nat) = 2 * u + (5 - boardC7.length) := by
    rw [hb5]
    omega
  have hspec := calculateWinRate_spec ⟨heroC7, boardC7, numPlayers, known, iterations⟩ g
    u (2 * u) hu hd rfl (by rw [hb5]) hko hdl
  rw [hspec]
  have hmap1 : ((List.range iterations).map fun i =>
      specTrialCredit heroC7 boardC7 known u g (i * (2 * u))) =
      (List.range iterations).map fun _ => (1 : ℚ) :=
    List.map_congr_left fun i _ => hcred _
  rw [hmap1, List.map_const', List.sum_replicate, List.length_range]
  have hne : ((iterations : ℚ)) ≠ 0 := Nat.cast_ne_zero.2 (by omega)
  have hsmul : (iterations • (1 : ℚ)) = (iterations : ℚ) := by
    rw [nsmul_eq_mul, mul_one]
  rw [hsmul, div_self hne]

theorem claim_C7_witness :
    ((2 ≤ 2 ∧ 2 ≤ 9) ∧ 1 ≤ 1 ∧ (∀ h ∈ ([] : List (List Card)), h.length = 2)
      ∧ ([] : List (List Card)).length ≤ 2 - 1
      ∧ (heroC7 ++ boardC7 ++ ([] : List (List Card)).flatten).Nodup)
    ∧ calculateWinRate ⟨heroC7, boardC7, 2, [], 1⟩ (fun _ => 0) = some ⟨1, 1⟩ :=
  ⟨⟨by decide, by decide, by decide, by decide, by decide⟩,
   claim_C7_four_deuces_equity_one (fun _ => 0) 2 1 [] (by decide) (by decide) (by decide)
     (by decide) (by decide)⟩
